import Mathlib

/-!
Verification development for the Daily Shit List task tracker.

The Convex backend (src/convex/planner.ts and src/convex/http.ts) is embedded
shallowly: the task table becomes a list of task records carrying their
document ids, each mutation becomes a pure function from the store to a
result paired with the updated store, and the HTTP command gateway becomes a
function from request arguments to a response value.  Wall-clock timestamps
(the now() helper in the source) are passed in explicitly as strings, and
JavaScript string operations (toLowerCase, includes, startsWith, split on
whitespace, localeCompare ordering, stable Array.prototype.sort) are modelled
on the character lists of Lean strings.
-/

namespace DSL

/-- Task status enumeration from the Convex schema:
planned, in_flight, blocked, done. -/
inductive Status where
  | planned
  | in_flight
  | blocked
  | done
deriving DecidableEq, Repr

/-- String key used by the find query and the status filters
(the literal stored in the database). -/
def Status.toKey : Status → String
  | .planned => "planned"
  | .in_flight => "in_flight"
  | .blocked => "blocked"
  | .done => "done"

/-- A timestamped note entry, matching the notes array element
shape in the schema. -/
structure Note where
  t : String
  text : String
deriving DecidableEq, Repr

/-- A task document.  The id field models the Convex document id; fields that
the schema marks optional become Option values (a Convex patch that writes
undefined removes the field, which is modelled by writing none). -/
structure Task where
  id : Nat
  title : String
  project : String
  status : Status
  blockedReason : Option String
  notes : List Note
  createdAt : String
  updatedAt : String
  completedAt : Option String
deriving DecidableEq, Repr

/-- The task table together with the id counter used for fresh inserts. -/
structure Store where
  tasks : List Task
  nextId : Nat
deriving DecidableEq, Repr

/-- Model of JavaScript toLowerCase, acting on the character list. -/
def lower (s : String) : String := ⟨s.data.map Char.toLower⟩

/-- Model of JavaScript String.prototype.includes (substring test). -/
def includesStr (hay needle : String) : Bool := decide (needle.data <:+: hay.data)

/-- Model of JavaScript String.prototype.startsWith. -/
def startsWithStr (s p : String) : Bool := decide (p.data <+: s.data)

/-- Truthiness of an optional string argument in JavaScript: undefined and
the empty string are falsy. -/
def truthy : Option String → Bool
  | none => false
  | some s => !(s == "")

/-- Convex db.patch over every document carrying the given id. -/
def patchTasks (ts : List Task) (i : Nat) (f : Task → Task) : List Task :=
  ts.map (fun t => if t.id = i then f t else t)

/-- Whether a document with the given id is present (db.get succeeds). -/
def existsTask (ts : List Task) (i : Nat) : Bool :=
  ts.any (fun t => t.id == i)

/-- Result shape of the simple mutations: ok true, or the
Task-not-found error object. -/
inductive MutResult where
  | ok
  | notFound
deriving DecidableEq, Repr

/-- The patch object of the done mutation. -/
def doneFun (now : String) (t : Task) : Task :=
  { t with status := .done, completedAt := some now, updatedAt := now,
           blockedReason := none }

/-- The patch object of the status mutation. -/
def statusFun (now : String) (newStatus : Status) (reason : Option String)
    (t : Task) : Task :=
  { t with status := newStatus, updatedAt := now,
           blockedReason :=
             if newStatus = .blocked then
               (if truthy reason then reason else t.blockedReason)
             else none,
           completedAt := if newStatus = .done then some now else none }

/-- The patch object of the note mutation. -/
def noteFun (now : String) (text : String) (t : Task) : Task :=
  { t with notes := t.notes ++ [⟨now, text⟩], updatedAt := now }

/-- The patch object of the rename mutation. -/
def renameFun (now : String) (title : String) (t : Task) : Task :=
  { t with title := title, updatedAt := now }

/-- The patch object of the activate mutation. -/
def activateFun (now : String) (t : Task) : Task :=
  { t with status := .in_flight, updatedAt := now, blockedReason := none,
           completedAt := none }

namespace Planner

/-- Embeds the add mutation: inserts a task in the planned state with an
optional initial note (a falsy note argument yields an empty notes array). -/
def add (now : String) (title project : String) (note : Option String)
    (S : Store) : Nat × Store :=
  let notes : List Note :=
    match note with
    | some text => if text == "" then [] else [⟨now, text⟩]
    | none => []
  let task : Task :=
    { id := S.nextId, title := title, project := project, status := .planned,
      blockedReason := none, notes := notes, createdAt := now,
      updatedAt := now, completedAt := none }
  (S.nextId, { tasks := S.tasks ++ [task], nextId := S.nextId + 1 })

/-- Embeds the done mutation: status done, completedAt stamped,
blockedReason removed. -/
def done (now : String) (taskId : Nat) (S : Store) : MutResult × Store :=
  if existsTask S.tasks taskId then
    (.ok, { S with tasks := patchTasks S.tasks taskId (doneFun now) })
  else (.notFound, S)

/-- Embeds the status mutation.  blockedReason is written only when the new
status is blocked and the reason argument is truthy; it is removed when the
new status is not blocked, and left untouched when the new status is blocked
but no truthy reason was given.  completedAt is stamped exactly when the new
status is done. -/
def status (now : String) (taskId : Nat) (newStatus : Status)
    (reason : Option String) (S : Store) : MutResult × Store :=
  if existsTask S.tasks taskId then
    (.ok, { S with tasks := patchTasks S.tasks taskId (statusFun now newStatus reason) })
  else (.notFound, S)

/-- Embeds the note mutation: appends one timestamped note. -/
def note (now : String) (taskId : Nat) (text : String) (S : Store) :
    MutResult × Store :=
  if existsTask S.tasks taskId then
    (.ok, { S with tasks := patchTasks S.tasks taskId (noteFun now text) })
  else (.notFound, S)

/-- Embeds the rename mutation: replaces the title. -/
def rename (now : String) (taskId : Nat) (title : String) (S : Store) :
    MutResult × Store :=
  if existsTask S.tasks taskId then
    (.ok, { S with tasks := patchTasks S.tasks taskId (renameFun now title) })
  else (.notFound, S)

/-- Embeds the deleteTask mutation. -/
def deleteTask (taskId : Nat) (S : Store) : MutResult × Store :=
  if existsTask S.tasks taskId then
    (.ok, { S with tasks := S.tasks.filter (fun t => !(t.id == taskId)) })
  else (.notFound, S)

/-- Embeds the activate mutation: unblocks if blocked and sets in_flight,
reporting the previous status. -/
def activate (now : String) (taskId : Nat) (S : Store) :
    Option Status × Store :=
  match S.tasks.find? (fun t => t.id == taskId) with
  | some task =>
      (some task.status, { S with tasks := patchTasks S.tasks taskId (activateFun now) })
  | none => (none, S)

end Planner

/-- The find query argument: a single string or an array of alternatives
(matched as a logical OR). -/
inductive Query where
  | one (s : String)
  | many (l : List String)
deriving DecidableEq, Repr

/-- Normalizes the query argument to an array of lowercase terms. -/
def normalizeQ : Query → List String
  | .one s => [lower s]
  | .many l => l.map lower

/-- The optional status filter of find and deleteMany: a falsy (absent or
empty) status string matches everything, otherwise the stored status literal
must equal it. -/
def matchesStatusArg (statusArg : Option String) (t : Task) : Bool :=
  match statusArg with
  | none => true
  | some s => if s == "" then true else t.status.toKey == s

/-- Case-insensitive OR substring match of the query terms against a title. -/
def titleMatches (qs : List String) (t : Task) : Bool :=
  qs.any (fun q => includesStr (lower t.title) q)

namespace Planner

/-- Embeds the find query: all tasks whose lowercased title contains one of
the lowercased query terms, intersected with the optional status filter. -/
def find (q : Query) (statusArg : Option String) (S : Store) : List Task :=
  S.tasks.filter (fun t => titleMatches (normalizeQ q) t && matchesStatusArg statusArg t)

/-- Embeds the deleteMany mutation: removes every matching task and reports
the (id, title) pairs of the deleted tasks together with their count. -/
def deleteMany (q : Query) (statusArg : Option String) (S : Store) :
    (List (Nat × String) × Nat) × Store :=
  let matching := find q statusArg S
  let deleted := matching.map (fun t => (t.id, t.title))
  ((deleted, deleted.length),
   { S with tasks := S.tasks.filter (fun t => !(matching.any (fun m => m.id == t.id))) })

end Planner

/-- Status priority used by the aggregate view sort:
in_flight, then blocked, then planned, then done. -/
def statusOrder : Status → Nat
  | .in_flight => 0
  | .blocked => 1
  | .planned => 2
  | .done => 3

/-- Order produced by the aggregate view comparator: status priority first,
ties broken by createdAt ascending (localeCompare modelled as lexicographic
order on the character list). -/
def taskLe (a b : Task) : Prop :=
  statusOrder a.status < statusOrder b.status ∨
  (statusOrder a.status = statusOrder b.status ∧ a.createdAt.data ≤ b.createdAt.data)

instance : DecidableRel taskLe := fun a b => by
  unfold taskLe; infer_instance

instance : IsTotal Task taskLe := by
  refine ⟨fun a b => ?_⟩
  rcases Nat.lt_trichotomy (statusOrder a.status) (statusOrder b.status) with h | h | h
  · exact Or.inl (Or.inl h)
  · rcases le_total a.createdAt.data b.createdAt.data with h2 | h2
    · exact Or.inl (Or.inr ⟨h, h2⟩)
    · exact Or.inr (Or.inr ⟨h.symm, h2⟩)
  · exact Or.inr (Or.inl h)

instance : IsTrans Task taskLe := by
  refine ⟨fun a b c hab hbc => ?_⟩
  rcases hab with hab | ⟨hab, hab2⟩
  · rcases hbc with hbc | ⟨hbc, _⟩
    · exact Or.inl (hab.trans hbc)
    · exact Or.inl (hbc ▸ hab)
  · rcases hbc with hbc | ⟨hbc, hbc2⟩
    · exact Or.inl (hab ▸ hbc)
    · exact Or.inr ⟨hab.trans hbc, hab2.trans hbc2⟩

/-- Order used to sort note arrays by timestamp in merge imports. -/
def noteLe (a b : Note) : Prop := a.t.data ≤ b.t.data

instance : DecidableRel noteLe := fun a b => by
  unfold noteLe; infer_instance

instance : IsTotal Note noteLe :=
  ⟨fun a b => le_total a.t.data b.t.data⟩

instance : IsTrans Note noteLe :=
  ⟨fun _ _ _ hab hbc => hab.trans hbc⟩

/-- The stable JavaScript Array.prototype.sort with the status-priority
comparator, modelled as insertion sort. -/
def sortTasks (l : List Task) : List Task := List.insertionSort taskLe l

/-- The stable sort of a notes array by timestamp. -/
def sortNotes (l : List Note) : List Note := List.insertionSort noteLe l

/-- First-occurrence deduplication, modelling both the JavaScript object key
order of the group-by and the set spread of findProjectByName. -/
def dedupKeepFirst (l : List String) : List String :=
  l.foldl (fun acc x => if acc.contains x then acc else acc ++ [x]) []

/-- The tasks selected by the list query for the given optional filters
(a falsy project filter matches everything). -/
def listTasks (project : Option String) (st : Option Status) (S : Store) : List Task :=
  S.tasks.filter (fun t =>
    (match project with
     | some p => if p == "" then true else t.project == p
     | none => true) &&
    (match st with
     | some s => t.status == s
     | none => true))

/-- Embeds the list query: filtered tasks grouped by project in first
occurrence order, each group sorted by the status-priority comparator. -/
def listView (project : Option String) (st : Option Status) (S : Store) :
    List (String × List Task) :=
  let ts := listTasks project st S
  (dedupKeepFirst (ts.map (fun t => t.project))).map
    (fun p => (p, sortTasks (ts.filter (fun t => t.project == p))))

/-- Model of a JavaScript split on runs of whitespace: one fragment is
emitted when a run starts and when the input ends, so an empty fragment
appears before a leading run and after a trailing run, matching the regex
split used by the project-name word-overlap heuristic.  The accumulator
holds the reversed current fragment, the flag records whether the previous
character was whitespace. -/
def wsSplitGo : List Char → List Char → Bool → List (List Char)
  | [], acc, _ => [acc.reverse]
  | c :: cs, acc, lastWs =>
    if c.isWhitespace then
      if lastWs then wsSplitGo cs acc true
      else acc.reverse :: wsSplitGo cs [] true
    else wsSplitGo cs (c :: acc) false

/-- Splits a string on whitespace runs, as the regex split does. -/
def wsSplit (s : String) : List String :=
  (wsSplitGo s.data [] false).map (fun cs => ⟨cs⟩)

/-- The word-overlap heuristic of findProjectByName: some word of one side
contains or is contained in some word of the other. -/
def wordOverlap (inputLower pLower : String) : Bool :=
  (wsSplit inputLower).any (fun w =>
    (wsSplit pLower).any (fun pw => includesStr pw w || includesStr w pw))

namespace Planner

/-- Embeds the findProjectByName query: the distinct project names in first
occurrence order, an exact case-insensitive match if one exists, otherwise up
to five fuzzy suggestions (starts-with either way, contains, word overlap). -/
def findProjectByName (name : String) (S : Store) : Option String × List String :=
  match (dedupKeepFirst (S.tasks.map (fun t => t.project))).find?
      (fun p => lower p == lower name) with
  | some p => (some p, [])
  | none =>
      (none, ((dedupKeepFirst (S.tasks.map (fun t => t.project))).filter (fun p =>
        startsWithStr (lower p) (lower name) || startsWithStr (lower name) (lower p) ||
        includesStr (lower p) (lower name) || wordOverlap (lower name) (lower p))).take 5)

end Planner

/-- A task entry of an import payload, matching the argument validator
of the importTasks mutation. -/
structure ImportTask where
  title : String
  project : String
  status : Status
  blockedReason : Option String
  notes : List Note
  createdAt : String
  updatedAt : String
  completedAt : Option String
deriving DecidableEq, Repr

/-- The three import modes. -/
inductive ImportMode where
  | replace
  | merge
  | append
deriving DecidableEq, Repr

/-- The merge lookup key: lowercase(project) ++ colon ++ lowercase(title). -/
def taskKey (project title : String) : String := lower project ++ ":" ++ lower title

/-- The key of a stored task. -/
def keyOfTask (t : Task) : String := taskKey t.project t.title

/-- The key of a payload task. -/
def keyOfImport (p : ImportTask) : String := taskKey p.project p.title

/-- The stored task an import payload entry is inserted as: payload fields
verbatim except for a fresh id and the stamped updatedAt. -/
def mkImportTask (now : String) (i : Nat) (p : ImportTask) : Task :=
  { id := i, title := p.title, project := p.project, status := p.status,
    blockedReason := p.blockedReason, notes := p.notes,
    createdAt := p.createdAt, updatedAt := now, completedAt := p.completedAt }

/-- Inserting one payload entry as a new task. -/
def importInsert (now : String) (p : ImportTask) (S : Store) : Store :=
  { tasks := S.tasks ++ [mkImportTask now S.nextId p], nextId := S.nextId + 1 }

/-- The merge-mode lookup map: built once from the pre-import task list by
setting each key in iteration order, so the last task with a given key wins.
The map is never updated during the import loop, so lookups always see the
pre-import snapshot. -/
def lookupKey (snapshot : List Task) (k : String) : Option Task :=
  (snapshot.filter (fun t => keyOfTask t == k)).getLast?

/-- The merge-mode notes union: starts from the existing notes and appends
each incoming note whose exact (timestamp, text) pair is not yet present. -/
def dedupNotes (existing incoming : List Note) : List Note :=
  incoming.foldl (fun acc n =>
    if acc.any (fun m => m.t == n.t && m.text == n.text) then acc else acc ++ [n])
    existing

/-- The patch a merge applies for one payload entry whose key matches a
snapshot task: status, blockedReason and completedAt come from the payload,
the notes are the snapshot notes deduped against the incoming ones and
sorted by timestamp.  An entry without a snapshot match patches nothing. -/
def mergePatchApply (snapshot : List Task) (now : String) (p : ImportTask)
    (u : Task) : Task :=
  match lookupKey snapshot (keyOfImport p) with
  | some e =>
      { u with status := p.status, blockedReason := p.blockedReason,
               notes := sortNotes (dedupNotes e.notes p.notes),
               updatedAt := now, completedAt := p.completedAt }
  | none => u

/-- One step of the merge loop: a snapshot key match patches the matched
document, otherwise the entry is inserted as a new task. -/
def mergeStoreStep (snapshot : List Task) (now : String) (acc : Store)
    (p : ImportTask) : Store :=
  match lookupKey snapshot (keyOfImport p) with
  | some e =>
      { acc with tasks := patchTasks acc.tasks e.id (mergePatchApply snapshot now p) }
  | none => importInsert now p acc

/-- Count summary returned by importTasks. -/
structure ImportCounts where
  deleted : Nat
  created : Nat
  updated : Nat
  skipped : Nat
deriving DecidableEq, Repr

/-- Embeds the importTasks mutation over the three modes. -/
def importTasks (now : String) (data : List ImportTask) (mode : ImportMode)
    (S : Store) : ImportCounts × Store :=
  match mode with
  | .replace =>
      let S1 := data.foldl (fun acc p => importInsert now p acc)
        { tasks := [], nextId := S.nextId }
      ({ deleted := S.tasks.length, created := data.length, updated := 0,
         skipped := 0 }, S1)
  | .merge =>
      let snapshot := S.tasks
      let S1 := data.foldl (mergeStoreStep snapshot now) S
      let matched := data.filter (fun p => (lookupKey snapshot (keyOfImport p)).isSome)
      ({ deleted := 0, created := data.length - matched.length,
         updated := matched.length, skipped := 0 }, S1)
  | .append =>
      let S1 := data.foldl (fun acc p => importInsert now p acc) S
      ({ deleted := 0, created := data.length, updated := 0, skipped := 0 }, S1)

/-- A task with its updatedAt stamp erased, used to compare stores modulo
the timestamps an import writes. -/
def stripTs (t : Task) : Task := { t with updatedAt := "" }

/-- Whether a payload entry patches the document with the given id. -/
def targetsB (snapshot : List Task) (p : ImportTask) (i : Nat) : Bool :=
  match lookupKey snapshot (keyOfImport p) with
  | some e => e.id == i
  | none => false

/-- One patch-only step of a merge fold. -/
def mergePatchStep (snapshot : List Task) (now : String) (acc : List Task)
    (p : ImportTask) : List Task :=
  match lookupKey snapshot (keyOfImport p) with
  | some e => patchTasks acc e.id (mergePatchApply snapshot now p)
  | none => acc

/-- The patch part of a merge fold: every matched payload entry patch, with
the inserts left out. -/
def mergePatches (snapshot : List Task) (now : String) (data : List ImportTask)
    (ts : List Task) : List Task :=
  data.foldl (mergePatchStep snapshot now) ts

/-- The insert part of a merge fold: the tasks inserted for the unmatched
payload entries, given the starting value of the fresh-id counter. -/
def mergeInserts (snapshot : List Task) (now : String) :
    List ImportTask → Nat → List Task
  | [], _ => []
  | p :: rest, n =>
    match lookupKey snapshot (keyOfImport p) with
    | some _ => mergeInserts snapshot now rest n
    | none => mkImportTask now n p :: mergeInserts snapshot now rest (n + 1)

/-- How many payload entries a merge fold inserts. -/
def countInserts (snapshot : List Task) (data : List ImportTask) : Nat :=
  (data.filter (fun p => (lookupKey snapshot (keyOfImport p)).isNone)).length

/-- The last payload entry whose patch hits the given document id. -/
def lastTargeting (snapshot : List Task) (data : List ImportTask) (i : Nat) :
    Option ImportTask :=
  (data.filter (fun p => targetsB snapshot p i)).getLast?

/-- The cumulative effect of all patches of a merge fold on one document:
only the last entry targeting it matters, because each patch writes all the
volatile fields from its own payload entry and the frozen snapshot. -/
def finalizeTask (snapshot : List Task) (now : String) (data : List ImportTask)
    (u : Task) : Task :=
  match lastTargeting snapshot data u.id with
  | some p => mergePatchApply snapshot now p u
  | none => u

/-- Candidate record carried by the Ambiguous error of the gateway. -/
structure Candidate where
  id : Nat
  title : String
  project : String
  status : Status
deriving DecidableEq, Repr

/-- Outcome of the task-reference resolution helper of the HTTP gateway. -/
inductive Resolve where
  | ok (id : Nat)
  | noMatch (q : String)
  | ambiguous (cands : List Candidate)
  | needIdOrTitle
deriving DecidableEq, Repr

/-- The id / title / exact fields of a task-targeting request body.  Absent
or falsy fields are modelled as none; the exact override flag defaults to
false as an absent field is falsy. -/
structure LookupArgs where
  id : Option Nat := none
  title : Option String := none
  exact : Bool := false
deriving DecidableEq, Repr

/-- Embeds the resolveTaskId helper of the gateway: an explicit id is
returned unchecked; a title is matched by the find query, a case-insensitive
exact title match wins outright, several matches without an exact winner are
ambiguous unless the exact override flag is set, in which case the first
match in store order is used. -/
def resolveTaskId (args : LookupArgs) (S : Store) : Resolve :=
  match args.id with
  | some i => .ok i
  | none =>
    match args.title with
    | none => .needIdOrTitle
    | some q =>
      if q == "" then .needIdOrTitle else
      match Planner.find (.one q) none S with
      | [] => .noMatch q
      | m :: ms =>
        match (m :: ms).find? (fun t => lower t.title == lower q) with
        | some t => .ok t.id
        | none =>
          if decide (0 < ms.length) && !args.exact then
            .ambiguous ((m :: ms).map (fun t =>
              { id := t.id, title := t.title, project := t.project, status := t.status }))
          else .ok m.id

/-- Response of a task-transition gateway operation: a success envelope
carrying the task re-read after the mutation (null when the id does not
resolve to a document), or the resolution error. -/
inductive OpResp where
  | okTask (task : Option Task)
  | errResolve (r : Resolve)
deriving DecidableEq, Repr

/-- Embeds the done branch of the gateway dispatcher: resolve, run the done
mutation ignoring its result, re-read the task, and answer ok. -/
def gatewayDone (now : String) (args : LookupArgs) (S : Store) : OpResp × Store :=
  match resolveTaskId args S with
  | .ok i =>
      let S1 := (Planner.done now i S).2
      (.okTask (S1.tasks.find? (fun t => t.id == i)), S1)
  | r => (.errResolve r, S)

/-- Response of the add gateway operation. -/
structure AddResp where
  task : Option Task
  projectCreated : Bool
  suggestions : List String
deriving DecidableEq, Repr

/-- Embeds the add branch of the gateway dispatcher: requires truthy title
and project, reuses the canonical casing of an exact case-insensitive project
match (a falsy canonical name falls back to the typed one), and surfaces the
fuzzy suggestions in the response. -/
def gatewayAdd (now : String) (title project : String) (note : Option String)
    (S : Store) : Option AddResp × Store :=
  if title == "" || project == "" then (none, S)
  else
    let pl := Planner.findProjectByName project S
    let projectName :=
      match pl.1 with
      | some p => if p == "" then project else p
      | none => project
    let r := Planner.add now title projectName note S
    (some { task := r.2.tasks.find? (fun t => t.id == r.1),
            projectCreated := pl.1.isNone,
            suggestions := pl.2 }, r.2)

/-- Truthiness of the q argument of find and deleteMany: absent and the
empty string are falsy, an array is always truthy. -/
def qTruthy : Option Query → Bool
  | none => false
  | some (.one s) => !(s == "")
  | some (.many _) => true

/-- Display form of the query used in the zero-match message. -/
def queryDisplay : Query → String
  | .one s => s
  | .many l => String.intercalate " or " l

/-- Response of the find gateway operation. -/
inductive FindResp where
  | needQ
  | empty (message : String)
  | found (tasks : List Task) (count : Nat)
deriving DecidableEq, Repr

/-- Embeds the find branch of the gateway dispatcher: a falsy query is a
client error; zero matches yield a success envelope with an empty task list,
count zero and an explanatory message. -/
def gatewayFind (q : Option Query) (statusArg : Option String) (S : Store) :
    FindResp :=
  match q with
  | none => .needQ
  | some qq =>
      if qTruthy (some qq) then
        let tasks := Planner.find qq statusArg S
        if tasks.length == 0 then
          .empty ("No tasks found matching " ++ queryDisplay qq)
        else .found tasks tasks.length
      else .needQ

/-- Response of the deleteMany gateway operation. -/
inductive DeleteManyResp where
  | needQ
  | ok (deleted : List (Nat × String)) (count : Nat)
deriving DecidableEq, Repr

/-- Embeds the deleteMany branch of the gateway dispatcher: a falsy query is
a client error, otherwise the mutation result is returned as a success
envelope, also when zero tasks matched. -/
def gatewayDeleteMany (q : Option Query) (statusArg : Option String)
    (S : Store) : DeleteManyResp × Store :=
  match q with
  | none => (.needQ, S)
  | some qq =>
      if qTruthy (some qq) then
        let r := Planner.deleteMany qq statusArg S
        (.ok r.1.1 r.1.2, r.2)
      else (.needQ, S)

/-- The status bookkeeping invariant of the spec: blocked exactly when
blockedReason is present, done exactly when completedAt is present. -/
def Inv (t : Task) : Prop :=
  (t.status = .blocked ↔ t.blockedReason ≠ none) ∧
  (t.status = .done ↔ t.completedAt ≠ none)

/-- The same invariant read on an import payload entry. -/
def InvP (p : ImportTask) : Prop :=
  (p.status = .blocked ↔ p.blockedReason ≠ none) ∧
  (p.status = .done ↔ p.completedAt ≠ none)

instance (t : Task) : Decidable (Inv t) := by unfold Inv; infer_instance

instance (p : ImportTask) : Decidable (InvP p) := by unfold InvP; infer_instance

/-- Well-formedness of the store model: document ids are pairwise distinct
and below the fresh-id counter. -/
def Store.Wf (S : Store) : Prop :=
  S.tasks.Pairwise (fun a b => a.id ≠ b.id) ∧ ∀ t ∈ S.tasks, t.id < S.nextId

instance (S : Store) : Decidable S.Wf := by
  unfold Store.Wf
  infer_instance

/-- Sample task used by concrete witnesses: a fresh planned task. -/
def sampleTask (i : Nat) (title project createdAt : String) : Task :=
  { id := i, title := title, project := project, status := .planned,
    blockedReason := none, notes := [], createdAt := createdAt,
    updatedAt := createdAt, completedAt := none }

/-- Store for the idempotence witness. -/
def w6Store : Store := { tasks := [sampleTask 0 "a" "p" "1"], nextId := 1 }

/-- A completed task for the sort-order witness. -/
def w7a : Task :=
  { id := 0, title := "a", project := "p", status := .done,
    blockedReason := none, notes := [], createdAt := "1", updatedAt := "1",
    completedAt := some "1" }

/-- An in-flight task for the sort-order witness. -/
def w7b : Task :=
  { id := 1, title := "b", project := "p", status := .in_flight,
    blockedReason := none, notes := [], createdAt := "2", updatedAt := "2",
    completedAt := none }

/-- Store for the sort-order witness. -/
def w7Store : Store := { tasks := [w7a, w7b], nextId := 2 }

/-- Store for the exact-match-priority witness: the title of the first task
is a strict prefix of the title of the second. -/
def w2Store : Store :=
  { tasks := [sampleTask 0 "Fix bug" "core" "1",
              sampleTask 1 "Fix bug in parser" "core" "2"], nextId := 2 }

/-- Store for the ambiguity witness: two titles share the substring auth. -/
def w3Store : Store :=
  { tasks := [sampleTask 0 "Fix auth bug" "core" "1",
              sampleTask 1 "Fix auth flow" "core" "2"], nextId := 2 }

/-- Store for the zero-match witness. -/
def w9Store : Store := { tasks := [sampleTask 0 "alpha" "p" "1"], nextId := 1 }

/-- Store for the gateway-not-found evaluation: one task with id zero, so
id five resolves to no document. -/
def c4Store : Store := { tasks := [sampleTask 0 "a" "p" "1"], nextId := 1 }

/-- Store for the project-normalization claim: one existing project named
backend, close to but not equal to the typed name backend api. -/
def c8Store : Store := { tasks := [sampleTask 0 "t" "backend" "1"], nextId := 1 }

/-- Store for the status-invariant claim: one planned task. -/
def c1Store : Store := { tasks := [sampleTask 0 "a" "p" "1"], nextId := 1 }

/-- An import payload entry that itself violates the status bookkeeping
invariant: declared done with no completedAt. -/
def c1BadImport : ImportTask :=
  { title := "b", project := "p", status := .done, blockedReason := none,
    notes := [], createdAt := "1", updatedAt := "1", completedAt := none }

/-- An import payload entry satisfying the status bookkeeping invariant. -/
def c1GoodImport : ImportTask :=
  { title := "b", project := "p", status := .blocked,
    blockedReason := some "waiting", notes := [], createdAt := "1",
    updatedAt := "1", completedAt := none }

/-- An import payload entry whose notes array is not sorted by timestamp. -/
def c5Import : ImportTask :=
  { title := "a", project := "p", status := .planned, blockedReason := none,
    notes := [⟨"2", "x"⟩, ⟨"1", "y"⟩], createdAt := "1", updatedAt := "1",
    completedAt := none }

/-- Store for the merge-idempotence witness. -/
def c5WStore : Store :=
  { tasks := [{ id := 0, title := "a", project := "p", status := .planned,
                blockedReason := none, notes := [⟨"0", "first"⟩],
                createdAt := "0", updatedAt := "0", completedAt := none }],
    nextId := 1 }

/-- A payload for the merge-idempotence witness: one entry matching the
stored task by key and one new entry, both with sorted notes. -/
def c5WImport : List ImportTask :=
  [{ title := "A", project := "P", status := .done, blockedReason := none,
     notes := [⟨"1", "y"⟩, ⟨"2", "x"⟩], createdAt := "1", updatedAt := "1",
     completedAt := some "2" },
   { title := "b", project := "p", status := .planned, blockedReason := none,
     notes := [], createdAt := "1", updatedAt := "1", completedAt := none }]

/-- The frame of a task: the fields never touched by a pure status
transition. -/
def frameOf (t : Task) : Nat × String × String × List Note × String :=
  (t.id, t.title, t.project, t.notes, t.createdAt)

section Lemmas

/-- Patching twice at the same id composes the patch functions, provided the
first patch preserves ids. -/
theorem patchTasks_patchTasks (l : List Task) (i : Nat) (f g : Task → Task)
    (hf : ∀ t, (f t).id = t.id) :
    patchTasks (patchTasks l i f) i g = patchTasks l i (fun t => g (f t)) := by
  unfold patchTasks
  rw [List.map_map]
  refine List.map_congr_left (fun t _ => ?_)
  by_cases h : t.id = i
  · simp [h, hf]
  · simp [h]

/-- Pointwise equal patch functions give equal patches. -/
theorem patchTasks_congr (l : List Task) (i : Nat) (f g : Task → Task)
    (h : ∀ t, f t = g t) : patchTasks l i f = patchTasks l i g := by
  unfold patchTasks
  refine List.map_congr_left (fun t _ => ?_)
  by_cases ht : t.id = i <;> simp [ht, h]

/-- A patch that preserves ids preserves document existence. -/
theorem existsTask_patchTasks (l : List Task) (i j : Nat) (f : Task → Task)
    (hf : ∀ t, (f t).id = t.id) :
    existsTask (patchTasks l i f) j = existsTask l j := by
  unfold existsTask patchTasks
  rw [List.any_map]
  congr 1
  funext t
  by_cases h : t.id = i <;> simp [h, hf]

/-- The done patch keeps the document id. -/
theorem doneFun_id (now : String) : ∀ t, (doneFun now t).id = t.id := fun _ => rfl

/-- The status patch keeps the document id. -/
theorem statusFun_id (now : String) (ns : Status) (reason : Option String) :
    ∀ t, (statusFun now ns reason t).id = t.id := fun _ => rfl

/-- The rename patch keeps the document id. -/
theorem renameFun_id (now : String) (title : String) :
    ∀ t, (renameFun now title t).id = t.id := fun _ => rfl

/-- The activate patch keeps the document id. -/
theorem activateFun_id (now : String) : ∀ t, (activateFun now t).id = t.id := fun _ => rfl

/-- A patch whose function preserves the frame preserves the frames of the
whole table. -/
theorem frame_patchTasks (l : List Task) (i : Nat) (f : Task → Task)
    (hf : ∀ t, frameOf (f t) = frameOf t) :
    (patchTasks l i f).map frameOf = l.map frameOf := by
  unfold patchTasks
  rw [List.map_map]
  refine List.map_congr_left (fun t _ => ?_)
  by_cases h : t.id = i <;> simp [h, hf]

end Lemmas

/-- C10: the pure status-transition mutations done, status and activate
leave every task's title, project, notes array and createdAt (and its id)
unchanged: the frame projection of the whole table is identical before and
after the mutation. -/
theorem c10_transition_frame (now : String) (i : Nat) (ns : Status)
    (reason : Option String) (S : Store) :
    ((Planner.done now i S).2.tasks.map frameOf = S.tasks.map frameOf) ∧
    ((Planner.status now i ns reason S).2.tasks.map frameOf = S.tasks.map frameOf) ∧
    ((Planner.activate now i S).2.tasks.map frameOf = S.tasks.map frameOf) := by
  refine ⟨?_, ?_, ?_⟩
  · unfold Planner.done
    by_cases h : existsTask S.tasks i
    · simp only [h, if_true]
      exact frame_patchTasks _ _ _ (fun t => by simp [frameOf, doneFun])
    · simp [h]
  · unfold Planner.status
    by_cases h : existsTask S.tasks i
    · simp only [h, if_true]
      exact frame_patchTasks _ _ _ (fun t => by simp [frameOf, statusFun])
    · simp [h]
  · unfold Planner.activate
    cases h : S.tasks.find? (fun t => t.id == i) with
    | none => simp
    | some tk =>
        simp only []
        exact frame_patchTasks _ _ _ (fun t => by simp [frameOf, activateFun])

/-- C6: repeating done, block (status blocked with the same reason), unblock
(status planned) or rename with identical arguments, including the ambient
timestamp, against a task that exists leaves the store exactly as after the
first application, and both applications answer ok. -/
theorem c6_idempotence (now : String) (i : Nat) (reason : Option String)
    (newTitle : String) (S : Store) (h : existsTask S.tasks i = true) :
    (Planner.done now i (Planner.done now i S).2 = Planner.done now i S) ∧
    (Planner.status now i .blocked reason (Planner.status now i .blocked reason S).2 =
      Planner.status now i .blocked reason S) ∧
    (Planner.status now i .planned none (Planner.status now i .planned none S).2 =
      Planner.status now i .planned none S) ∧
    (Planner.rename now i newTitle (Planner.rename now i newTitle S).2 =
      Planner.rename now i newTitle S) ∧
    (Planner.done now i S).1 = .ok ∧
    (Planner.status now i .blocked reason S).1 = .ok ∧
    (Planner.status now i .planned none S).1 = .ok ∧
    (Planner.rename now i newTitle S).1 = .ok := by
  refine ⟨?_, ?_, ?_, ?_, ?_, ?_, ?_, ?_⟩
  · unfold Planner.done
    simp only [h, if_true]
    rw [existsTask_patchTasks _ _ _ _ (doneFun_id now), h]
    simp only [if_true]
    rw [patchTasks_patchTasks _ _ _ _ (doneFun_id now)]
    rw [patchTasks_congr _ _ (fun t => doneFun now (doneFun now t)) (doneFun now)
      (fun t => rfl)]
  · unfold Planner.status
    simp only [h, if_true]
    rw [existsTask_patchTasks _ _ _ _ (statusFun_id now .blocked reason), h]
    simp only [if_true]
    rw [patchTasks_patchTasks _ _ _ _ (statusFun_id now .blocked reason)]
    rw [patchTasks_congr _ _ _ (statusFun now .blocked reason) (fun t => by
      by_cases hr : truthy reason <;> simp [statusFun, hr])]
  · unfold Planner.status
    simp only [h, if_true]
    rw [existsTask_patchTasks _ _ _ _ (statusFun_id now .planned none), h]
    simp only [if_true]
    rw [patchTasks_patchTasks _ _ _ _ (statusFun_id now .planned none)]
    rw [patchTasks_congr _ _
      (fun t => statusFun now .planned none (statusFun now .planned none t))
      (statusFun now .planned none) (fun t => rfl)]
  · unfold Planner.rename
    simp only [h, if_true]
    rw [existsTask_patchTasks _ _ _ _ (renameFun_id now newTitle), h]
    simp only [if_true]
    rw [patchTasks_patchTasks _ _ _ _ (renameFun_id now newTitle)]
    rw [patchTasks_congr _ _
      (fun t => renameFun now newTitle (renameFun now newTitle t))
      (renameFun now newTitle) (fun t => rfl)]
  · simp [Planner.done, h]
  · simp [Planner.status, h]
  · simp [Planner.status, h]
  · simp [Planner.rename, h]


/-- A filter that returns a singleton means find? returns its element: the
element is the first and only match. -/
theorem filter_singleton_find (p : α → Bool) (l : List α) (x : α)
    (h : l.filter p = [x]) : l.find? p = some x := by
  induction l with
  | nil => simp at h
  | cons a as ih =>
      by_cases ha : p a
      · rw [List.filter_cons_of_pos ha] at h
        rw [List.find?_cons_of_pos _ ha]
        have := List.cons.injEq a (as.filter p) x [] ▸ h
        exact congrArg some (by
          have h2 := h
          rw [List.cons.injEq] at h2
          exact h2.1)
      · rw [List.filter_cons_of_neg ha] at h
        rw [List.find?_cons_of_neg _ ha]
        exact ih h

/-- C2: when exactly one of the substring candidates matches the query title
case-insensitively, resolution by title selects that candidate, whatever the
exact flag is and however many other substring matches exist. -/
theorem c2_exact_priority (S : Store) (q : String) (e : Bool) (x : Task)
    (hq : ¬ q = "")
    (h : (Planner.find (.one q) none S).filter
      (fun t => lower t.title == lower q) = [x]) :
    resolveTaskId { id := none, title := some q, exact := e } S = .ok x.id := by
  have hqb : (q == "") = false := by simpa using hq
  unfold resolveTaskId
  simp only [hqb, Bool.false_eq_true, if_false]
  cases hm : Planner.find (.one q) none S with
  | nil => rw [hm] at h; simp at h
  | cons m ms =>
      rw [hm] at h
      simp only [filter_singleton_find _ _ _ h]

/-- C7: every project group of the aggregate list view is ordered by the
status priority (in_flight, blocked, planned, done) with ties broken by
createdAt ascending. -/
theorem c7_sort_order (project : Option String) (st : Option Status)
    (S : Store) (p : String) (g : List Task)
    (h : (p, g) ∈ listView project st S) : g.Pairwise taskLe := by
  unfold listView at h
  simp only [List.mem_map] at h
  obtain ⟨r, hr, heq⟩ := h
  have hg : g = sortTasks ((listTasks project st S).filter (fun t => t.project == r)) := by
    have := congrArg Prod.snd heq
    simpa using this.symm
  rw [hg]
  exact List.sorted_insertionSort taskLe _

/-- Witness for c7_sort_order: in the sample store the in-flight task is
listed before the completed one although it was created later. -/
theorem c7_sort_order_witness : List.Pairwise taskLe [w7b, w7a] :=
  c7_sort_order none none w7Store "p" [w7b, w7a] (by decide)

/-- Witness for c2_exact_priority on the two-task sample store. -/
theorem c2_exact_priority_witness :
    resolveTaskId { id := none, title := some "Fix bug", exact := false } w2Store =
      .ok (sampleTask 0 "Fix bug" "core" "1").id :=
  c2_exact_priority w2Store "Fix bug" false (sampleTask 0 "Fix bug" "core" "1")
    (by decide) (by decide)

/-- Witness for c6_idempotence on the one-task sample store. -/
theorem c6_idempotence_witness :
    (Planner.done "2" 0 (Planner.done "2" 0 w6Store).2 = Planner.done "2" 0 w6Store) ∧
    (Planner.status "2" 0 .blocked (some "note") (Planner.status "2" 0 .blocked (some "note") w6Store).2 =
      Planner.status "2" 0 .blocked (some "note") w6Store) ∧
    (Planner.status "2" 0 .planned none (Planner.status "2" 0 .planned none w6Store).2 =
      Planner.status "2" 0 .planned none w6Store) ∧
    (Planner.rename "2" 0 "b" (Planner.rename "2" 0 "b" w6Store).2 =
      Planner.rename "2" 0 "b" w6Store) ∧
    (Planner.done "2" 0 w6Store).1 = .ok ∧
    (Planner.status "2" 0 .blocked (some "note") w6Store).1 = .ok ∧
    (Planner.status "2" 0 .planned none w6Store).1 = .ok ∧
    (Planner.rename "2" 0 "b" w6Store).1 = .ok :=
  c6_idempotence "2" 0 (some "note") "b" w6Store (by decide)


/-- C3: with no case-insensitive exact title match and more than one
substring match, resolution is ambiguous and carries the candidate tuples,
unless the exact override flag forces the first match in store order. -/
theorem c3_ambiguity (S : Store) (q : String) (m : Task) (ms : List Task)
    (hq : ¬ q = "")
    (hfind : Planner.find (.one q) none S = m :: ms)
    (hms : ms ≠ [])
    (hnoexact : ∀ x ∈ m :: ms, ¬ lower x.title = lower q) :
    resolveTaskId { id := none, title := some q, exact := false } S =
      .ambiguous ((m :: ms).map (fun t =>
        { id := t.id, title := t.title, project := t.project,
          status := t.status })) ∧
    resolveTaskId { id := none, title := some q, exact := true } S = .ok m.id := by
  have hqb : (q == "") = false := by simpa using hq
  have hfq : (m :: ms).find? (fun t => lower t.title == lower q) = none :=
    List.find?_eq_none.mpr (fun x hx => by simpa using hnoexact x hx)
  have hlen : (decide (0 < ms.length)) = true := by
    cases ms with
    | nil => exact absurd rfl hms
    | cons b bs => simp
  constructor
  · unfold resolveTaskId
    simp only [hqb, Bool.false_eq_true, if_false, hfind, hfq, hlen,
      Bool.not_false, Bool.and_true, Bool.and_self, if_true]
  · unfold resolveTaskId
    simp only [hqb, Bool.false_eq_true, if_false, hfind, hfq, hlen,
      Bool.not_true, Bool.and_false, Bool.false_eq_true, if_false]

/-- Witness for c3_ambiguity on the two-task auth store. -/
theorem c3_ambiguity_witness :
    (resolveTaskId { id := none, title := some "auth", exact := false } w3Store =
      .ambiguous [{ id := 0, title := "Fix auth bug", project := "core", status := .planned },
                  { id := 1, title := "Fix auth flow", project := "core", status := .planned }]) ∧
    resolveTaskId { id := none, title := some "auth", exact := true } w3Store =
      .ok (sampleTask 0 "Fix auth bug" "core" "1").id :=
  c3_ambiguity w3Store "auth" (sampleTask 0 "Fix auth bug" "core" "1")
    [sampleTask 1 "Fix auth flow" "core" "2"]
    (by decide) (by decide) (by decide) (by decide)

/-- C9: a deleteMany or find request whose query matches no task is a
success (zero deletions, or an empty list with count zero), while a missing
query field is a client error. -/
theorem c9_zero_match (S : Store) (q : Query) (st : Option String)
    (hq : qTruthy (some q) = true)
    (hzero : Planner.find q st S = []) :
    gatewayDeleteMany (some q) st S = (.ok [] 0, S) ∧
    gatewayFind (some q) st S =
      .empty ("No tasks found matching " ++ queryDisplay q) ∧
    gatewayDeleteMany none st S = (.needQ, S) ∧
    gatewayFind none st S = .needQ := by
  refine ⟨?_, ?_, rfl, rfl⟩
  · unfold gatewayDeleteMany Planner.deleteMany
    simp only [hq, if_true, hzero]
    simp
  · unfold gatewayFind
    simp only [hq, if_true, hzero]
    simp

/-- Witness for c9_zero_match on the one-task sample store. -/
theorem c9_zero_match_witness :
    gatewayDeleteMany (some (.one "zzz")) none w9Store = (.ok [] 0, w9Store) ∧
    gatewayFind (some (.one "zzz")) none w9Store =
      .empty ("No tasks found matching " ++ queryDisplay (.one "zzz")) ∧
    gatewayDeleteMany none none w9Store = (.needQ, w9Store) ∧
    gatewayFind none none w9Store = .needQ :=
  c9_zero_match w9Store (.one "zzz") none (by decide) (by decide)

/-- C4: evaluating the gateway done operation with an explicit id that no
stored task carries: the planner mutation itself reports the not-found
error, but the gateway discards that result and answers with a success
envelope whose task is null. -/
theorem c4_gateway_done_missing_id :
    gatewayDone "2" { id := some 5 } c4Store = (.okTask none, c4Store) ∧
    (Planner.done "2" 5 c4Store).1 = .notFound := by decide


/-- Folding the first-occurrence deduplication keeps exactly the members of
the accumulator and of the folded list. -/
theorem mem_foldl_dedup (l : List String) : ∀ (acc : List String) (y : String),
    (y ∈ l.foldl (fun acc x => if acc.contains x then acc else acc ++ [x]) acc) ↔
    (y ∈ acc ∨ y ∈ l) := by
  induction l with
  | nil => intro acc y; simp
  | cons x xs ih =>
      intro acc y
      simp only [List.foldl_cons]
      by_cases hc : acc.contains x
      · rw [if_pos hc, ih]
        constructor
        · rintro (h | h)
          · exact Or.inl h
          · exact Or.inr (List.mem_cons_of_mem _ h)
        · rintro (h | h)
          · exact Or.inl h
          · rcases List.mem_cons.mp h with rfl | h2
            · exact Or.inl (by simpa using hc)
            · exact Or.inr h2
      · rw [if_neg hc, ih]
        simp only [List.mem_append, List.mem_singleton, List.mem_cons]
        tauto

/-- Membership in the deduplicated list is membership in the original. -/
theorem mem_dedupKeepFirst {l : List String} {y : String} :
    y ∈ dedupKeepFirst l ↔ y ∈ l := by
  unfold dedupKeepFirst
  rw [mem_foldl_dedup]
  simp

/-- Lowercasing maps only the empty string to the empty string. -/
theorem lower_eq_empty {s : String} : lower s = "" ↔ s = "" := by
  constructor
  · intro h
    have h2 : s.data.map Char.toLower = [] := congrArg String.data h
    exact String.ext (List.map_eq_nil_iff.mp h2)
  · intro h
    rw [h]
    rfl


/-- C8 counterexample: with an existing project backend, adding a task to
the close name backend api creates the project as typed (the new task is
filed under backend api, not backend) while backend is only surfaced as a
suggestion — the gateway does not reuse the canonical casing of a close
non-exact match. -/
theorem c8_counterexample :
    ((gatewayAdd "2" "x" "backend api" none c8Store).1).map
      (fun r => (r.suggestions, r.task.map (fun t => t.project))) =
      some (["backend"], some "backend api") := by decide

/-- C8 amended: on add, an exact case-insensitive project match is reused
with its canonical casing; when no exact match exists the project is created
exactly as typed — even when close prefix, substring or word-overlap names
exist — and every surfaced suggestion is an existing project name. -/
theorem c8_project_normalization (now title project : String)
    (note : Option String) (S : Store)
    (ht : ¬ title = "") (hp : ¬ project = "") :
    ((gatewayAdd now title project note S).2.tasks.length = S.tasks.length + 1) ∧
    ((∃ t ∈ S.tasks, lower t.project = lower project) →
      ∃ canonical, (∃ t ∈ S.tasks, t.project = canonical) ∧
        lower canonical = lower project ∧
        ∀ t ∈ (gatewayAdd now title project note S).2.tasks.drop S.tasks.length,
          t.project = canonical) ∧
    ((∀ t ∈ S.tasks, ¬ lower t.project = lower project) →
      ∀ t ∈ (gatewayAdd now title project note S).2.tasks.drop S.tasks.length,
        t.project = project) ∧
    (∀ r, (gatewayAdd now title project note S).1 = some r →
      ∀ s ∈ r.suggestions, ∃ t ∈ S.tasks, t.project = s) := by
  have htb : (title == "") = false := by simpa using ht
  have hpb : (project == "") = false := by simpa using hp
  refine ⟨?_, ?_, ?_, ?_⟩
  · unfold gatewayAdd
    simp only [htb, hpb, Bool.or_self, Bool.false_eq_true, if_false]
    cases hfp : (Planner.findProjectByName project S).1 with
    | none => simp [Planner.add]
    | some c =>
        by_cases hc : c == "" <;> simp [hc, Planner.add]
  · intro hex
    obtain ⟨t0, ht0, hlow⟩ := hex
    have hmem : t0.project ∈ dedupKeepFirst (S.tasks.map (fun t => t.project)) :=
      mem_dedupKeepFirst.mpr (List.mem_map.mpr ⟨t0, ht0, rfl⟩)
    have hsome : ((dedupKeepFirst (S.tasks.map (fun t => t.project))).find?
        (fun p => lower p == lower project)).isSome := by
      rw [List.find?_isSome]
      exact ⟨t0.project, hmem, by simpa using hlow⟩
    obtain ⟨c, hc⟩ := Option.isSome_iff_exists.mp hsome
    have hcmem : c ∈ S.tasks.map (fun t => t.project) :=
      mem_dedupKeepFirst.mp (List.mem_of_find?_eq_some hc)
    obtain ⟨tc, htc, htcp⟩ := List.mem_map.mp hcmem
    have hclow : lower c = lower project := by
      have := List.find?_some hc
      simpa using this
    have hcne : ¬ c = "" := by
      intro h0
      rw [h0] at hclow
      exact hp (lower_eq_empty.mp hclow.symm)
    have hcne2 : (c == "") = false := by simpa using hcne
    refine ⟨c, ⟨tc, htc, htcp⟩, hclow, ?_⟩
    unfold gatewayAdd
    simp only [htb, hpb, Bool.or_self, Bool.false_eq_true, if_false]
    unfold Planner.findProjectByName
    simp only [hc, hcne2, Bool.false_eq_true, if_false, Planner.add]
    simp only [List.drop_left]
    intro t htmem
    rcases List.mem_singleton.mp htmem with rfl
    rfl
  · intro hnone
    have hfq : ((dedupKeepFirst (S.tasks.map (fun t => t.project))).find?
        (fun p => lower p == lower project)) = none := by
      rw [List.find?_eq_none]
      intro p hpmem
      obtain ⟨tp, htp, htpp⟩ := List.mem_map.mp (mem_dedupKeepFirst.mp hpmem)
      simpa [htpp] using hnone tp htp
    unfold gatewayAdd
    simp only [htb, hpb, Bool.or_self, Bool.false_eq_true, if_false]
    unfold Planner.findProjectByName
    simp only [hfq, Planner.add, List.drop_left]
    intro t htmem
    rcases List.mem_singleton.mp htmem with rfl
    rfl
  · intro r hr s hs
    have hsugg : r.suggestions = (Planner.findProjectByName project S).2 := by
      unfold gatewayAdd at hr
      simp only [htb, hpb, Bool.or_self, Bool.false_eq_true, if_false,
        Option.some.injEq] at hr
      rw [← hr]
    rw [hsugg] at hs
    unfold Planner.findProjectByName at hs
    cases hfq : ((dedupKeepFirst (S.tasks.map (fun t => t.project))).find?
        (fun p => lower p == lower project)) with
    | some c =>
        rw [hfq] at hs
        exact absurd hs (List.not_mem_nil s)
    | none =>
        rw [hfq] at hs
        have hmem := List.mem_of_mem_filter (List.mem_of_mem_take hs)
        obtain ⟨tp, htp, htpp⟩ := List.mem_map.mp (mem_dedupKeepFirst.mp hmem)
        exact ⟨tp, htp, htpp⟩


/-- Witness for c8_project_normalization: adding with the differently cased
name Backend against the store whose canonical project is backend. -/
theorem c8_project_normalization_witness :
    ((gatewayAdd "2" "x" "Backend" none c8Store).2.tasks.length =
      c8Store.tasks.length + 1) ∧
    ((∃ t ∈ c8Store.tasks, lower t.project = lower "Backend") →
      ∃ canonical, (∃ t ∈ c8Store.tasks, t.project = canonical) ∧
        lower canonical = lower "Backend" ∧
        ∀ t ∈ (gatewayAdd "2" "x" "Backend" none c8Store).2.tasks.drop
          c8Store.tasks.length, t.project = canonical) ∧
    ((∀ t ∈ c8Store.tasks, ¬ lower t.project = lower "Backend") →
      ∀ t ∈ (gatewayAdd "2" "x" "Backend" none c8Store).2.tasks.drop
        c8Store.tasks.length, t.project = "Backend") ∧
    (∀ r, (gatewayAdd "2" "x" "Backend" none c8Store).1 = some r →
      ∀ s ∈ r.suggestions, ∃ t ∈ c8Store.tasks, t.project = s) :=
  c8_project_normalization "2" "x" "Backend" none c8Store (by decide) (by decide)

/-- C1 counterexample: the status mutation targeting blocked with no reason
leaves a blocked task with a null blockedReason, and an append-mode import
copies a payload entry that is done with a null completedAt verbatim — so
not every state-mutating operation re-establishes the invariant. -/
theorem c1_counterexample :
    ((Planner.status "2" 0 .blocked none c1Store).2.tasks.map
      (fun t => (t.status, t.blockedReason)) = [(.blocked, none)]) ∧
    ((importTasks "2" [c1BadImport] .append { tasks := [], nextId := 0 }).2.tasks.map
      (fun t => (t.status, t.completedAt)) = [(.done, none)]) := by decide


/-- Tasks of an insert-only import fold: an original task or an inserted
payload entry. -/
theorem mem_importFold_insert (now : String) (data : List ImportTask) :
    ∀ (S : Store) (t : Task),
      t ∈ (data.foldl (fun acc p => importInsert now p acc) S).tasks →
      t ∈ S.tasks ∨ ∃ p ∈ data, ∃ n, t = mkImportTask now n p := by
  induction data with
  | nil => exact fun S t h => Or.inl h
  | cons p ps ih =>
      intro S t h
      rcases ih (importInsert now p S) t h with h2 | ⟨q, hq, n, hn⟩
      · rcases List.mem_append.mp h2 with h3 | h3
        · exact Or.inl h3
        · exact Or.inr ⟨p, List.mem_cons_self p ps, S.nextId, List.mem_singleton.mp h3⟩
      · exact Or.inr ⟨q, List.mem_cons_of_mem p hq, n, hn⟩

/-- Tasks of a merge fold: an original task, or a task whose status,
blockedReason and completedAt were written verbatim from a payload entry
(by a patch of a matched task or by an insert). -/
theorem mem_mergeFold (snapshot : List Task) (now : String)
    (data : List ImportTask) :
    ∀ (S : Store) (t : Task),
      t ∈ (data.foldl (mergeStoreStep snapshot now) S).tasks →
      t ∈ S.tasks ∨ ∃ p ∈ data,
        t.status = p.status ∧ t.blockedReason = p.blockedReason ∧
        t.completedAt = p.completedAt := by
  induction data with
  | nil => exact fun S t h => Or.inl h
  | cons p ps ih =>
      intro S t h
      rcases ih (mergeStoreStep snapshot now S p) t h with h2 | ⟨q, hq, hcond⟩
      · unfold mergeStoreStep at h2
        cases hl : lookupKey snapshot (keyOfImport p) with
        | some e =>
            rw [hl] at h2
            rcases List.mem_map.mp h2 with ⟨u, hu, ht⟩
            by_cases hid : u.id = e.id
            · rw [if_pos hid] at ht
              refine Or.inr ⟨p, List.mem_cons_self p ps, ?_⟩
              rw [← ht]
              unfold mergePatchApply
              rw [hl]
              exact ⟨rfl, rfl, rfl⟩
            · rw [if_neg hid] at ht
              exact Or.inl (ht ▸ hu)
        | none =>
            rw [hl] at h2
            rcases List.mem_append.mp h2 with h3 | h3
            · exact Or.inl h3
            · refine Or.inr ⟨p, List.mem_cons_self p ps, ?_⟩
              rw [List.mem_singleton.mp h3]
              exact ⟨rfl, rfl, rfl⟩
      · exact Or.inr ⟨q, List.mem_cons_of_mem p hq, hcond⟩

/-- C1 amended: add, done and activate re-establish the blocked/done
bookkeeping invariant on the tasks they write; the generic status mutation
does so whenever it does not target blocked without a truthy reason; and
an import in any mode writes only invariant-satisfying tasks provided
every payload entry satisfies the invariant (untouched originals aside). -/
theorem c1_status_invariants (now title project : String)
    (note : Option String) (i : Nat) (ns : Status) (reason : Option String)
    (data : List ImportTask) (mode : ImportMode) (S : Store)
    (hres : ns ≠ .blocked ∨ truthy reason = true)
    (hdata : ∀ p ∈ data, InvP p) :
    (∀ t ∈ (Planner.add now title project note S).2.tasks.drop S.tasks.length, Inv t) ∧
    (∀ t ∈ (Planner.done now i S).2.tasks, t.id = i → Inv t) ∧
    (∀ t ∈ (Planner.activate now i S).2.tasks, t.id = i → Inv t) ∧
    (∀ t ∈ (Planner.status now i ns reason S).2.tasks, t.id = i → Inv t) ∧
    (∀ t ∈ (importTasks now data mode S).2.tasks, Inv t ∨ t ∈ S.tasks) := by
  refine ⟨?_, ?_, ?_, ?_, ?_⟩
  · intro t ht
    unfold Planner.add at ht
    rw [List.drop_left] at ht
    rw [List.mem_singleton.mp ht]
    exact ⟨by simp, by simp⟩
  · intro t ht hid
    unfold Planner.done at ht
    by_cases hex : existsTask S.tasks i
    · rw [if_pos hex] at ht
      rcases List.mem_map.mp ht with ⟨u, hu, hut⟩
      by_cases huid : u.id = i
      · rw [if_pos huid] at hut
        rw [← hut]
        exact ⟨by simp [doneFun], by simp [doneFun]⟩
      · rw [if_neg huid] at hut
        exact absurd (hut ▸ hid) huid
    · rw [if_neg hex] at ht
      exact absurd (by simpa [existsTask] using ⟨t, ht, by simpa using hid⟩) hex
  · intro t ht hid
    unfold Planner.activate at ht
    cases hf : S.tasks.find? (fun u => u.id == i) with
    | none =>
        rw [hf] at ht
        have := List.find?_eq_none.mp hf t ht
        simp at this
        exact absurd hid this
    | some tk =>
        rw [hf] at ht
        rcases List.mem_map.mp ht with ⟨u, hu, hut⟩
        by_cases huid : u.id = i
        · rw [if_pos huid] at hut
          rw [← hut]
          exact ⟨by simp [activateFun], by simp [activateFun]⟩
        · rw [if_neg huid] at hut
          exact absurd (hut ▸ hid) huid
  · intro t ht hid
    unfold Planner.status at ht
    by_cases hex : existsTask S.tasks i
    · rw [if_pos hex] at ht
      rcases List.mem_map.mp ht with ⟨u, hu, hut⟩
      by_cases huid : u.id = i
      · rw [if_pos huid] at hut
        rw [← hut]
        by_cases hblk : ns = .blocked
        · have htr : truthy reason = true := by
            rcases hres with h | h
            · exact absurd hblk h
            · exact h
          cases reason with
          | none => simp [truthy] at htr
          | some s =>
              refine ⟨?_, ?_⟩
              · simp [statusFun, hblk, htr]
              · simp [statusFun, hblk]
        · refine ⟨?_, ?_⟩
          · simp [statusFun, hblk]
          · by_cases hdn : ns = .done <;> simp [statusFun, hdn]
      · rw [if_neg huid] at hut
        exact absurd (hut ▸ hid) huid
    · rw [if_neg hex] at ht
      exact absurd (by simpa [existsTask] using ⟨t, ht, by simpa using hid⟩) hex
  · intro t ht
    cases mode with
    | replace =>
        unfold importTasks at ht
        rcases mem_importFold_insert now data _ t ht with h | ⟨p, hp, n, hn⟩
        · simp at h
        · refine Or.inl ?_
          rw [hn]
          exact hdata p hp
    | append =>
        unfold importTasks at ht
        rcases mem_importFold_insert now data _ t ht with h | ⟨p, hp, n, hn⟩
        · exact Or.inr h
        · refine Or.inl ?_
          rw [hn]
          exact hdata p hp
    | merge =>
        unfold importTasks at ht
        rcases mem_mergeFold S.tasks now data _ t ht with h | ⟨p, hp, hs, hb, hc⟩
        · exact Or.inr h
        · refine Or.inl ?_
          unfold Inv
          rw [hs, hb, hc]
          exact hdata p hp

/-- Witness for c1_status_invariants on the sample store with an
invariant-satisfying merge payload. -/
theorem c1_status_invariants_witness :
    (∀ t ∈ (Planner.add "2" "x" "p" none c1Store).2.tasks.drop
      c1Store.tasks.length, Inv t) ∧
    (∀ t ∈ (Planner.done "2" 0 c1Store).2.tasks, t.id = 0 → Inv t) ∧
    (∀ t ∈ (Planner.activate "2" 0 c1Store).2.tasks, t.id = 0 → Inv t) ∧
    (∀ t ∈ (Planner.status "2" 0 .done none c1Store).2.tasks, t.id = 0 → Inv t) ∧
    (∀ t ∈ (importTasks "2" [c1GoodImport] .merge c1Store).2.tasks,
      Inv t ∨ t ∈ c1Store.tasks) :=
  c1_status_invariants "2" "x" "p" none 0 .done none [c1GoodImport] .merge c1Store
    (Or.inl (by decide)) (by decide)


/-- C5 counterexample: merge-importing a payload whose notes array is not
sorted by timestamp into an empty store inserts the notes verbatim; the
second merge-import of the same payload re-sorts them, so the second import
does not leave every task's notes array unchanged (both imports use the same
timestamp, so only the notes order differs). -/
theorem c5_counterexample :
    ((importTasks "7" [c5Import] .merge
        (importTasks "7" [c5Import] .merge { tasks := [], nextId := 0 }).2).2.tasks.map
      (fun t => t.notes)) ≠
    ((importTasks "7" [c5Import] .merge { tasks := [], nextId := 0 }).2.tasks.map
      (fun t => t.notes)) := by decide


/-- getLast? of a cons: the tail's last element, or else the head. -/
theorem getLastCons {α : Type} (x : α) (l : List α) :
    (x :: l).getLast? = l.getLast?.or (some x) := by
  have h : ([x] ++ l).getLast? = l.getLast?.or [x].getLast? :=
    List.getLast?_append
  simpa using h

/-- A note is a member of a deduped union whenever it came in. -/
theorem mem_dedupNotes_incoming (ex inc : List Note) :
    ∀ n ∈ inc, n ∈ dedupNotes ex inc := by
  unfold dedupNotes
  suffices h : ∀ (acc : List Note), (∀ n ∈ acc, n ∈ inc.foldl
      (fun acc n => if acc.any (fun m => m.t == n.t && m.text == n.text)
        then acc else acc ++ [n]) acc) ∧
      ∀ n ∈ inc, n ∈ inc.foldl
      (fun acc n => if acc.any (fun m => m.t == n.t && m.text == n.text)
        then acc else acc ++ [n]) acc by
    intro n hn
    exact (h ex).2 n hn
  induction inc with
  | nil => exact fun acc => ⟨fun n hn => hn, fun n hn => absurd hn (List.not_mem_nil n)⟩
  | cons q qs ih =>
      intro acc
      constructor
      · intro n hn
        simp only [List.foldl_cons]
        by_cases hq : acc.any (fun m => m.t == q.t && m.text == q.text)
        · rw [if_pos hq]
          exact (ih acc).1 n hn
        · rw [if_neg hq]
          exact (ih (acc ++ [q])).1 n (List.mem_append_left _ hn)
      · intro n hn
        rcases List.mem_cons.mp hn with rfl | hn2
        · simp only [List.foldl_cons]
          by_cases hq : acc.any (fun m => m.t == n.t && m.text == n.text)
          · rw [if_pos hq]
            have hmem : n ∈ acc := by
              rcases List.any_eq_true.mp hq with ⟨m, hm, hpred⟩
              have hp2 : m.t = n.t ∧ m.text = n.text := by simpa using hpred
              have : m = n := by
                cases m; cases n
                simp_all
              exact this ▸ hm
            exact (ih acc).1 n hmem
          · rw [if_neg hq]
            exact (ih (acc ++ [n])).1 n (List.mem_append_right _ (List.mem_singleton.mpr rfl))
        · simp only [List.foldl_cons]
          by_cases hq : acc.any (fun m => m.t == q.t && m.text == q.text)
          · rw [if_pos hq]
            exact (ih acc).2 n hn2
          · rw [if_neg hq]
            exact (ih (acc ++ [q])).2 n hn2

/-- Deduping incoming notes that are all already present changes nothing. -/
theorem dedupNotes_subset_eq (ex inc : List Note) (h : ∀ n ∈ inc, n ∈ ex) :
    dedupNotes ex inc = ex := by
  unfold dedupNotes
  induction inc with
  | nil => rfl
  | cons q qs ih =>
      simp only [List.foldl_cons]
      have hq : ex.any (fun m => m.t == q.t && m.text == q.text) = true := by
        refine List.any_eq_true.mpr ⟨q, h q (List.mem_cons_self q qs), ?_⟩
        simp
      rw [if_pos hq]
      exact ih (fun n hn => h n (List.mem_cons_of_mem q hn))

/-- The sorted notes list is sorted. -/
theorem sortNotes_pairwise (l : List Note) : (sortNotes l).Pairwise noteLe :=
  List.sorted_insertionSort noteLe l

/-- Sorting keeps exactly the members. -/
theorem mem_sortNotes {l : List Note} {n : Note} : n ∈ sortNotes l ↔ n ∈ l :=
  (List.perm_insertionSort noteLe l).mem_iff

/-- Sorting an already sorted notes list changes nothing. -/
theorem sortNotes_sorted_eq {l : List Note} (h : l.Pairwise noteLe) :
    sortNotes l = l :=
  List.Sorted.insertionSort_eq h


/-- The merge patch never changes the document id. -/
theorem mergePatchApply_id (snap : List Task) (now : String) (p : ImportTask) :
    ∀ u, (mergePatchApply snap now p u).id = u.id := by
  intro u
  unfold mergePatchApply
  cases h : lookupKey snap (keyOfImport p) with
  | none => rfl
  | some e => rfl

/-- The merge patch never changes a task's key. -/
theorem mergePatchApply_key (snap : List Task) (now : String) (p : ImportTask) :
    ∀ u, keyOfTask (mergePatchApply snap now p u) = keyOfTask u := by
  intro u
  unfold mergePatchApply
  cases h : lookupKey snap (keyOfImport p) with
  | none => rfl
  | some e => rfl

/-- A successful key lookup returns a snapshot member carrying that key. -/
theorem lookupKey_mem {snap : List Task} {k : String} {e : Task}
    (h : lookupKey snap k = some e) : e ∈ snap ∧ keyOfTask e = k := by
  unfold lookupKey at h
  have hmem := List.mem_of_mem_getLast? h
  exact ⟨List.mem_of_mem_filter hmem, by simpa using List.of_mem_filter hmem⟩

/-- Patching distributes over list append. -/
theorem patchTasks_append (A B : List Task) (i : Nat) (f : Task → Task) :
    patchTasks (A ++ B) i f = patchTasks A i f ++ patchTasks B i f := by
  unfold patchTasks
  exact List.map_append _ A B

/-- Patching a table that does not contain the id changes nothing. -/
theorem patchTasks_not_mem (l : List Task) (i : Nat) (f : Task → Task)
    (h : ∀ t ∈ l, t.id ≠ i) : patchTasks l i f = l := by
  unfold patchTasks
  have : l.map (fun t => if t.id = i then f t else t) = l.map (fun t => t) := by
    refine List.map_congr_left (fun t ht => ?_)
    rw [if_neg (h t ht)]
  rw [this, List.map_id']

/-- Unfolding equation of the patch-only step at a matched entry. -/
theorem mergePatchStep_some {snap : List Task} {p : ImportTask} {e : Task}
    (now : String) (acc : List Task)
    (hl : lookupKey snap (keyOfImport p) = some e) :
    mergePatchStep snap now acc p =
      patchTasks acc e.id (mergePatchApply snap now p) := by
  unfold mergePatchStep
  rw [hl]

/-- Unfolding equation of the patch-only step at an unmatched entry. -/
theorem mergePatchStep_none {snap : List Task} {p : ImportTask}
    (now : String) (acc : List Task)
    (hl : lookupKey snap (keyOfImport p) = none) :
    mergePatchStep snap now acc p = acc := by
  unfold mergePatchStep
  rw [hl]

/-- Unfolding equation of the merge-fold step at a matched entry. -/
theorem mergeStoreStep_some {snap : List Task} {p : ImportTask} {e : Task}
    (now : String) (S : Store)
    (hl : lookupKey snap (keyOfImport p) = some e) :
    mergeStoreStep snap now S p =
      { S with tasks := patchTasks S.tasks e.id (mergePatchApply snap now p) } := by
  unfold mergeStoreStep
  rw [hl]

/-- Unfolding equation of the merge-fold step at an unmatched entry. -/
theorem mergeStoreStep_none {snap : List Task} {p : ImportTask}
    (now : String) (S : Store)
    (hl : lookupKey snap (keyOfImport p) = none) :
    mergeStoreStep snap now S p = importInsert now p S := by
  unfold mergeStoreStep
  rw [hl]

/-- Unfolding equation of the insert list at the head entry. -/
theorem mergeInserts_cons (snap : List Task) (now : String) (p : ImportTask)
    (rest : List ImportTask) (n : Nat) :
    mergeInserts snap now (p :: rest) n =
      match lookupKey snap (keyOfImport p) with
      | some _ => mergeInserts snap now rest n
      | none => mkImportTask now n p :: mergeInserts snap now rest (n + 1) := rfl

/-- The patch part of a merge fold distributes over append. -/
theorem mergePatches_append (snap : List Task) (now : String)
    (data : List ImportTask) :
    ∀ (A B : List Task), mergePatches snap now data (A ++ B) =
      mergePatches snap now data A ++ mergePatches snap now data B := by
  induction data with
  | nil => intro A B; rfl
  | cons p rest ih =>
      intro A B
      unfold mergePatches
      simp only [List.foldl_cons]
      cases hl : lookupKey snap (keyOfImport p) with
      | some e =>
          rw [mergePatchStep_some now (A ++ B) hl, mergePatchStep_some now A hl,
            mergePatchStep_some now B hl, patchTasks_append]
          exact ih _ _
      | none =>
          rw [mergePatchStep_none now (A ++ B) hl, mergePatchStep_none now A hl,
            mergePatchStep_none now B hl]
          exact ih A B

/-- The patch part of a merge fold leaves tasks alone whose ids occur
nowhere in the snapshot. -/
theorem mergePatches_untouched (snap : List Task) (now : String)
    (data : List ImportTask) :
    ∀ (B : List Task), (∀ t ∈ B, ∀ e ∈ snap, e.id ≠ t.id) →
      mergePatches snap now data B = B := by
  induction data with
  | nil => intro B _; rfl
  | cons p rest ih =>
      intro B hB
      unfold mergePatches
      simp only [List.foldl_cons]
      cases hl : lookupKey snap (keyOfImport p) with
      | some e =>
          have he := lookupKey_mem hl
          rw [mergePatchStep_some now B hl,
            patchTasks_not_mem B e.id _ (fun t ht => (hB t ht e he.1).symm)]
          exact ih B hB
      | none =>
          rw [mergePatchStep_none now B hl]
          exact ih B hB

/-- Decomposition of a merge fold: the resulting table is the original table
with all patches applied, followed by the inserted tasks; the id counter
advances by the number of inserts. -/
theorem mergeFold_decomp (snap : List Task) (now : String)
    (data : List ImportTask) :
    ∀ (S : Store), (∀ e ∈ snap, e.id < S.nextId) →
      (data.foldl (mergeStoreStep snap now) S).tasks =
        mergePatches snap now data S.tasks ++
          mergeInserts snap now data S.nextId ∧
      (data.foldl (mergeStoreStep snap now) S).nextId =
        S.nextId + countInserts snap data := by
  induction data with
  | nil =>
      intro S _
      exact ⟨(List.append_nil _).symm, rfl⟩
  | cons p rest ih =>
      intro S hb
      simp only [List.foldl_cons]
      cases hl : lookupKey snap (keyOfImport p) with
      | some e =>
          rw [mergeStoreStep_some now S hl]
          obtain ⟨h1, h2⟩ := ih { S with
            tasks := patchTasks S.tasks e.id (mergePatchApply snap now p) } hb
          constructor
          · rw [h1]
            have hp : mergePatches snap now (p :: rest) S.tasks =
                mergePatches snap now rest
                  (patchTasks S.tasks e.id (mergePatchApply snap now p)) := by
              unfold mergePatches
              simp only [List.foldl_cons]
              rw [mergePatchStep_some now S.tasks hl]
            have hi : mergeInserts snap now (p :: rest) S.nextId =
                mergeInserts snap now rest S.nextId := by
              rw [mergeInserts_cons, hl]
            rw [hp, hi]
          · rw [h2]
            have hc : countInserts snap (p :: rest) = countInserts snap rest := by
              unfold countInserts
              rw [List.filter_cons, hl]
              simp
            rw [hc]
      | none =>
          rw [mergeStoreStep_none now S hl]
          obtain ⟨h1, h2⟩ := ih (importInsert now p S) (by
            intro e he
            have := hb e he
            unfold importInsert
            exact Nat.lt_succ_of_lt this)
          constructor
          · rw [h1]
            have htasks : (importInsert now p S).tasks =
                S.tasks ++ [mkImportTask now S.nextId p] := rfl
            have hnext : (importInsert now p S).nextId = S.nextId + 1 := rfl
            rw [htasks, hnext, mergePatches_append]
            have huntouched : mergePatches snap now rest [mkImportTask now S.nextId p] =
                [mkImportTask now S.nextId p] := by
              refine mergePatches_untouched snap now rest _ (fun t ht e he => ?_)
              rcases List.mem_singleton.mp ht with rfl
              have hid : (mkImportTask now S.nextId p).id = S.nextId := rfl
              rw [hid]
              exact Nat.ne_of_lt (hb e he)
            rw [huntouched]
            have hp : mergePatches snap now (p :: rest) S.tasks =
                mergePatches snap now rest S.tasks := by
              unfold mergePatches
              simp only [List.foldl_cons]
              rw [mergePatchStep_none now S.tasks hl]
            have hi : mergeInserts snap now (p :: rest) S.nextId =
                mkImportTask now S.nextId p ::
                  mergeInserts snap now rest (S.nextId + 1) := by
              rw [mergeInserts_cons, hl]
            rw [hp, hi, List.append_assoc, List.singleton_append]
          · rw [h2]
            have hnext : (importInsert now p S).nextId = S.nextId + 1 := rfl
            rw [hnext]
            have hc : countInserts snap (p :: rest) = countInserts snap rest + 1 := by
              unfold countInserts
              rw [List.filter_cons, hl]
              simp [Nat.add_comm]
            rw [hc]
            omega


/-- Unfolding equation of lastTargeting at a cons. -/
theorem lastTargeting_cons (snap : List Task) (p : ImportTask)
    (rest : List ImportTask) (i : Nat) :
    lastTargeting snap (p :: rest) i =
      if targetsB snap p i = true then (lastTargeting snap rest i).or (some p)
      else lastTargeting snap rest i := by
  unfold lastTargeting
  rw [List.filter_cons]
  by_cases ht : targetsB snap p i = true
  · rw [if_pos ht, if_pos ht, getLastCons]
  · rw [if_neg ht, if_neg ht]

/-- The last targeting entry does target. -/
theorem lastTargeting_targets {snap : List Task} {data : List ImportTask}
    {i : Nat} {q : ImportTask} (h : lastTargeting snap data i = some q) :
    targetsB snap q i = true := by
  unfold lastTargeting at h
  have hmem : q ∈ data.filter (fun p => targetsB snap p i) :=
    List.mem_of_mem_getLast? h
  exact (List.mem_filter.mp hmem).2

/-- A targeting entry has a snapshot match. -/
theorem targetsB_isSome {snap : List Task} {p : ImportTask} {i : Nat}
    (h : targetsB snap p i = true) :
    (lookupKey snap (keyOfImport p)).isSome := by
  unfold targetsB at h
  cases hl : lookupKey snap (keyOfImport p) with
  | none => rw [hl] at h; simp at h
  | some e => rfl

/-- Unfolding equation of targetsB at a matched entry. -/
theorem targetsB_eq_id {snap : List Task} {p : ImportTask} {e : Task}
    (i : Nat) (hl : lookupKey snap (keyOfImport p) = some e) :
    targetsB snap p i = (e.id == i) := by
  unfold targetsB
  rw [hl]

/-- Unfolding equation of targetsB at an unmatched entry. -/
theorem targetsB_eq_false {snap : List Task} {p : ImportTask}
    (i : Nat) (hl : lookupKey snap (keyOfImport p) = none) :
    targetsB snap p i = false := by
  unfold targetsB
  rw [hl]

/-- Unfolding equation of finalizeTask with a last targeting entry. -/
theorem finalizeTask_eq_some {snap : List Task} {data : List ImportTask}
    {u : Task} {p : ImportTask} (now : String)
    (h : lastTargeting snap data u.id = some p) :
    finalizeTask snap now data u = mergePatchApply snap now p u := by
  unfold finalizeTask
  rw [h]

/-- Unfolding equation of finalizeTask with no targeting entry. -/
theorem finalizeTask_eq_none {snap : List Task} {data : List ImportTask}
    {u : Task} (now : String) (h : lastTargeting snap data u.id = none) :
    finalizeTask snap now data u = u := by
  unfold finalizeTask
  rw [h]

/-- A later merge patch fully overwrites an earlier one on the same task,
because every volatile field it writes comes from its own payload entry and
the frozen snapshot. -/
theorem mergePatchApply_comp (snap : List Task) (t1 t2 : String)
    (p q : ImportTask) (u : Task)
    (hq : (lookupKey snap (keyOfImport q)).isSome) :
    mergePatchApply snap t2 q (mergePatchApply snap t1 p u) =
      mergePatchApply snap t2 q u := by
  unfold mergePatchApply
  cases hlq : lookupKey snap (keyOfImport q) with
  | none => rw [hlq] at hq; simp at hq
  | some eq2 =>
      cases hlp : lookupKey snap (keyOfImport p) with
      | none => rfl
      | some ep2 => rfl

/-- The merge patches of a fold act pointwise: each task is transformed by
the patch of the last payload entry targeting its id. -/
theorem mergePatches_eq_map (snap : List Task) (now : String)
    (data : List ImportTask) :
    ∀ ts : List Task,
      mergePatches snap now data ts = ts.map (finalizeTask snap now data) := by
  induction data with
  | nil =>
      intro ts
      have h : ts.map (finalizeTask snap now []) = ts.map (fun u => u) :=
        List.map_congr_left (fun u _ => rfl)
      rw [h, List.map_id']
      rfl
  | cons p rest ih =>
      intro ts
      unfold mergePatches
      simp only [List.foldl_cons]
      cases hl : lookupKey snap (keyOfImport p) with
      | none =>
          rw [mergePatchStep_none now ts hl]
          have h2 : List.foldl (mergePatchStep snap now) ts rest =
              mergePatches snap now rest ts := rfl
          rw [h2, ih ts]
          refine List.map_congr_left (fun u _ => ?_)
          have htg : targetsB snap p u.id = false := targetsB_eq_false u.id hl
          cases hlast : lastTargeting snap rest u.id with
          | some q =>
              rw [finalizeTask_eq_some now hlast,
                finalizeTask_eq_some now (by rw [lastTargeting_cons, htg]; simpa using hlast)]
          | none =>
              rw [finalizeTask_eq_none now hlast,
                finalizeTask_eq_none now (by rw [lastTargeting_cons, htg]; simpa using hlast)]
      | some e =>
          rw [mergePatchStep_some now ts hl]
          have h2 : List.foldl (mergePatchStep snap now)
              (patchTasks ts e.id (mergePatchApply snap now p)) rest =
              mergePatches snap now rest
                (patchTasks ts e.id (mergePatchApply snap now p)) := rfl
          rw [h2, ih (patchTasks ts e.id (mergePatchApply snap now p))]
          unfold patchTasks
          rw [List.map_map]
          refine List.map_congr_left (fun u _ => ?_)
          simp only [Function.comp]
          by_cases hid : u.id = e.id
          · rw [if_pos hid]
            have htg : targetsB snap p u.id = true := by
              rw [targetsB_eq_id u.id hl]
              simp [hid]
            cases hlast : lastTargeting snap rest u.id with
            | some q =>
                have hq : targetsB snap q u.id = true := lastTargeting_targets hlast
                have hlast2 : lastTargeting snap (p :: rest) u.id = some q := by
                  rw [lastTargeting_cons, if_pos htg, hlast]
                  rfl
                have hfid : (mergePatchApply snap now p u).id = u.id :=
                  mergePatchApply_id snap now p u
                rw [finalizeTask_eq_some now hlast2]
                have hlast3 : lastTargeting snap rest
                    (mergePatchApply snap now p u).id = some q := by
                  rw [hfid]
                  exact hlast
                rw [finalizeTask_eq_some now hlast3]
                exact mergePatchApply_comp snap now now p q u (targetsB_isSome hq)
            | none =>
                have hlast2 : lastTargeting snap (p :: rest) u.id = some p := by
                  rw [lastTargeting_cons, if_pos htg, hlast]
                  rfl
                have hfid : (mergePatchApply snap now p u).id = u.id :=
                  mergePatchApply_id snap now p u
                rw [finalizeTask_eq_some now hlast2]
                have hlast3 : lastTargeting snap rest
                    (mergePatchApply snap now p u).id = none := by
                  rw [hfid]
                  exact hlast
                rw [finalizeTask_eq_none now hlast3]
          · rw [if_neg hid]
            have htg : targetsB snap p u.id = false := by
              rw [targetsB_eq_id u.id hl]
              simp
              exact fun h => hid h.symm
            cases hlast : lastTargeting snap rest u.id with
            | some q =>
                rw [finalizeTask_eq_some now hlast,
                  finalizeTask_eq_some now (by rw [lastTargeting_cons, htg]; simpa using hlast)]
            | none =>
                rw [finalizeTask_eq_none now hlast,
                  finalizeTask_eq_none now (by rw [lastTargeting_cons, htg]; simpa using hlast)]


/-- finalizeTask never changes the document id. -/
theorem finalizeTask_id (snap : List Task) (now : String)
    (data : List ImportTask) : ∀ u, (finalizeTask snap now data u).id = u.id := by
  intro u
  cases hlast : lastTargeting snap data u.id with
  | some p =>
      rw [finalizeTask_eq_some now hlast]
      exact mergePatchApply_id snap now p u
  | none => rw [finalizeTask_eq_none now hlast]

/-- finalizeTask never changes a task's key. -/
theorem finalizeTask_key (snap : List Task) (now : String)
    (data : List ImportTask) :
    ∀ u, keyOfTask (finalizeTask snap now data u) = keyOfTask u := by
  intro u
  cases hlast : lastTargeting snap data u.id with
  | some p =>
      rw [finalizeTask_eq_some now hlast]
      exact mergePatchApply_key snap now p u
  | none => rw [finalizeTask_eq_none now hlast]

/-- The key filter commutes with finalizing every task. -/
theorem filter_key_map_finalize (snap : List Task) (now : String)
    (data : List ImportTask) (A : List Task) (k : String) :
    (A.map (finalizeTask snap now data)).filter (fun t => keyOfTask t == k) =
      (A.filter (fun t => keyOfTask t == k)).map (finalizeTask snap now data) := by
  rw [List.filter_map]
  congr 1
  refine List.filter_congr (fun t _ => ?_)
  simp only [Function.comp]
  rw [finalizeTask_key]

/-- The inserted task of a payload entry carries the entry's key. -/
theorem keyOf_mk (now : String) (n : Nat) (p : ImportTask) :
    keyOfTask (mkImportTask now n p) = keyOfImport p := rfl

/-- Members of the insert list are inserted unmatched payload entries. -/
theorem mem_mergeInserts (snap : List Task) (now : String) :
    ∀ (data : List ImportTask) (n : Nat) (t : Task),
      t ∈ mergeInserts snap now data n →
      ∃ p ∈ data, (∃ m, t = mkImportTask now m p) ∧
        lookupKey snap (keyOfImport p) = none := by
  intro data
  induction data with
  | nil => intro n t ht; exact absurd ht (List.not_mem_nil t)
  | cons p rest ih =>
      intro n t ht
      rw [mergeInserts_cons] at ht
      cases hl : lookupKey snap (keyOfImport p) with
      | some e =>
          rw [hl] at ht
          obtain ⟨q, hq, hm, hn⟩ := ih n t ht
          exact ⟨q, List.mem_cons_of_mem p hq, hm, hn⟩
      | none =>
          rw [hl] at ht
          rcases List.mem_cons.mp ht with rfl | ht2
          · exact ⟨p, List.mem_cons_self p rest, ⟨n, rfl⟩, hl⟩
          · obtain ⟨q, hq, hm, hn⟩ := ih (n + 1) t ht2
            exact ⟨q, List.mem_cons_of_mem p hq, hm, hn⟩

/-- Looking a key up among the inserts of a merge fold: when the snapshot
does not contain the key, the inserts with that key are exactly the payload
entries with that key, so the last of them wins and it is the insert of the
last payload entry with the key. -/
theorem mergeInserts_lookup (snap : List Task) (now : String) (k : String)
    (hk : lookupKey snap k = none) :
    ∀ (data : List ImportTask) (n : Nat),
      ((data.filter (fun p => keyOfImport p == k)) = [] →
        (mergeInserts snap now data n).filter (fun t => keyOfTask t == k) = []) ∧
      (∀ q, (data.filter (fun p => keyOfImport p == k)).getLast? = some q →
        ∃ m, ((mergeInserts snap now data n).filter
          (fun t => keyOfTask t == k)).getLast? = some (mkImportTask now m q)) := by
  intro data
  induction data with
  | nil =>
      intro n
      exact ⟨fun _ => rfl, fun q hq => by simp at hq⟩
  | cons p rest ih =>
      intro n
      by_cases hkey : (keyOfImport p == k) = true
      · have hkeq : keyOfImport p = k := by simpa using hkey
        have hlp : lookupKey snap (keyOfImport p) = none := by rw [hkeq]; exact hk
        constructor
        · intro habs
          rw [List.filter_cons, if_pos hkey] at habs
          cases habs
        · intro q hq
          rw [List.filter_cons, if_pos hkey, getLastCons] at hq
          rw [mergeInserts_cons, hlp, List.filter_cons]
          have hkey2 : (keyOfTask (mkImportTask now n p) == k) = true := by
            rw [keyOf_mk]
            exact hkey
          rw [if_pos hkey2, getLastCons]
          cases hrest : (rest.filter (fun p => keyOfImport p == k)).getLast? with
          | some q2 =>
              rw [hrest] at hq
              have hq2 : q2 = q := by simpa using hq
              obtain ⟨m, hm⟩ := (ih (n + 1)).2 q (hq2 ▸ hrest)
              rw [hm]
              exact ⟨m, rfl⟩
          | none =>
              rw [hrest] at hq
              have hpq : p = q := by simpa using hq
              have hempty := (ih (n + 1)).1 (List.getLast?_eq_none_iff.mp hrest)
              rw [hempty]
              exact ⟨n, by rw [hpq]; simp⟩
      · constructor
        · intro habs
          rw [List.filter_cons, if_neg hkey] at habs
          rw [mergeInserts_cons]
          cases hlp : lookupKey snap (keyOfImport p) with
          | some e => exact (ih n).1 habs
          | none =>
              rw [List.filter_cons]
              have hkey2 : ¬ (keyOfTask (mkImportTask now n p) == k) = true := by
                rw [keyOf_mk]
                exact hkey
              rw [if_neg hkey2]
              exact (ih (n + 1)).1 habs
        · intro q hq
          rw [List.filter_cons, if_neg hkey] at hq
          rw [mergeInserts_cons]
          cases hlp : lookupKey snap (keyOfImport p) with
          | some e => exact (ih n).2 q hq
          | none =>
              rw [List.filter_cons]
              have hkey2 : ¬ (keyOfTask (mkImportTask now n p) == k) = true := by
                rw [keyOf_mk]
                exact hkey
              rw [if_neg hkey2]
              exact (ih (n + 1)).2 q hq

/-- In a table with pairwise distinct ids, two members with the same id are
the same task. -/
theorem pairwise_id_inj {l : List Task}
    (h : l.Pairwise (fun a b => a.id ≠ b.id)) {a b : Task}
    (ha : a ∈ l) (hb : b ∈ l) (hid : a.id = b.id) : a = b := by
  by_contra hne
  exact (h.forall (fun x y hxy => hxy.symm) ha hb hne) hid

/-- Unfolding equation of lookupKey as a filtered last element. -/
theorem lookupKey_eq (l : List Task) (k : String) :
    lookupKey l k = (l.filter (fun t => keyOfTask t == k)).getLast? := rfl

/-- A key is absent exactly when no task carries it. -/
theorem lookupKey_none_iff {l : List Task} {k : String} :
    lookupKey l k = none ↔ l.filter (fun t => keyOfTask t == k) = [] := by
  rw [lookupKey_eq]
  exact List.getLast?_eq_none_iff


/-- Looking a key up after a merge fold: the winning document carries the
volatile fields of the last payload entry with that key, and its notes are
either the sorted dedup union with the pre-import match, or the entry's
notes verbatim when the key is new. -/
theorem lookup_after_merge (S : Store) (now : String) (data : List ImportTask)
    (hwf : S.Wf) (k : String) (q : ImportTask)
    (hlast : (data.filter (fun p => keyOfImport p == k)).getLast? = some q) :
    ∃ e1, lookupKey (data.foldl (mergeStoreStep S.tasks now) S).tasks k = some e1 ∧
      e1.status = q.status ∧ e1.blockedReason = q.blockedReason ∧
      e1.completedAt = q.completedAt ∧
      ((∃ e0, lookupKey S.tasks k = some e0 ∧
          e1.notes = sortNotes (dedupNotes e0.notes q.notes)) ∨
        (lookupKey S.tasks k = none ∧ e1.notes = q.notes)) := by
  have hdecomp := (mergeFold_decomp S.tasks now data S hwf.2).1
  have hkq : keyOfImport q = k := by
    have hqmem : q ∈ data.filter (fun p => keyOfImport p == k) :=
      List.mem_of_mem_getLast? hlast
    simpa using (List.mem_filter.mp hqmem).2
  rw [lookupKey_eq, hdecomp, mergePatches_eq_map, List.filter_append,
    List.getLast?_append]
  cases hl0 : lookupKey S.tasks k with
  | some e0 =>
      have hBempty : (mergeInserts S.tasks now data S.nextId).filter
          (fun t => keyOfTask t == k) = [] := by
        rw [List.filter_eq_nil_iff]
        intro t ht hkt
        obtain ⟨p, hp, ⟨m, hmk⟩, hnone⟩ :=
          mem_mergeInserts S.tasks now data S.nextId t ht
        have hpk : keyOfImport p = k := by
          rw [hmk, keyOf_mk] at hkt
          simpa using hkt
        rw [hpk] at hnone
        rw [hnone] at hl0
        cases hl0
      rw [hBempty, filter_key_map_finalize]
      have hfilterLast : (S.tasks.filter (fun t => keyOfTask t == k)).getLast? =
          some e0 := hl0
      rw [List.getLast?_map, hfilterLast]
      have he0 := lookupKey_mem hl0
      have htfilter : data.filter (fun p => targetsB S.tasks p e0.id) =
          data.filter (fun p => keyOfImport p == k) := by
        refine List.filter_congr (fun p hp => ?_)
        cases hlp : lookupKey S.tasks (keyOfImport p) with
        | none =>
            rw [targetsB_eq_false e0.id hlp]
            have hnk : ¬ keyOfImport p = k := by
              intro hcontra
              rw [hcontra, hl0] at hlp
              cases hlp
            simp [hnk]
        | some e2 =>
            rw [targetsB_eq_id e0.id hlp]
            have he2 := lookupKey_mem hlp
            by_cases hpk : keyOfImport p = k
            · rw [hpk, hl0] at hlp
              have heq : e2 = e0 := by
                injection hlp with h
                exact h.symm
              simp [heq, hpk]
            · have hne : e2 ≠ e0 := by
                intro hcontra
                apply hpk
                rw [← he2.2, hcontra, he0.2]
              have hidne : e2.id ≠ e0.id := by
                intro hcontra
                exact hne (pairwise_id_inj hwf.1 he2.1 he0.1 hcontra)
              simp [hidne, hpk]
      have hlt : lastTargeting S.tasks data e0.id = some q := by
        unfold lastTargeting
        rw [htfilter, hlast]
      refine ⟨finalizeTask S.tasks now data e0, by simp, ?_⟩
      rw [finalizeTask_eq_some now hlt]
      have hlq : lookupKey S.tasks (keyOfImport q) = some e0 := by
        rw [hkq]
        exact hl0
      unfold mergePatchApply
      rw [hlq]
      exact ⟨rfl, rfl, rfl, Or.inl ⟨e0, rfl, rfl⟩⟩
  | none =>
      have hAempty : S.tasks.filter (fun t => keyOfTask t == k) = [] :=
        lookupKey_none_iff.mp hl0
      rw [filter_key_map_finalize, hAempty]
      obtain ⟨m, hm⟩ := (mergeInserts_lookup S.tasks now k hl0 data S.nextId).2 q hlast
      rw [hm]
      exact ⟨mkImportTask now m q, by simp, rfl, rfl, rfl, Or.inr ⟨rfl, rfl⟩⟩


/-- Inserted ids start at the given counter. -/
theorem mergeInserts_id_ge (snap : List Task) (now : String) :
    ∀ (data : List ImportTask) (n : Nat),
      ∀ t ∈ mergeInserts snap now data n, n ≤ t.id := by
  intro data
  induction data with
  | nil => intro n t ht; exact absurd ht (List.not_mem_nil t)
  | cons p rest ih =>
      intro n t ht
      rw [mergeInserts_cons] at ht
      cases hl : lookupKey snap (keyOfImport p) with
      | some e =>
          rw [hl] at ht
          exact ih n t ht
      | none =>
          rw [hl] at ht
          rcases List.mem_cons.mp ht with rfl | ht2
          · exact Nat.le_refl _
          · exact Nat.le_of_succ_le (ih (n + 1) t ht2)

/-- Inserted ids stay below the advanced counter. -/
theorem mergeInserts_id_lt (snap : List Task) (now : String) :
    ∀ (data : List ImportTask) (n : Nat),
      ∀ t ∈ mergeInserts snap now data n,
        t.id < n + countInserts snap data := by
  intro data
  induction data with
  | nil => intro n t ht; exact absurd ht (List.not_mem_nil t)
  | cons p rest ih =>
      intro n t ht
      rw [mergeInserts_cons] at ht
      cases hl : lookupKey snap (keyOfImport p) with
      | some e =>
          rw [hl] at ht
          have hc : countInserts snap (p :: rest) = countInserts snap rest := by
            unfold countInserts
            rw [List.filter_cons, hl]
            simp
          rw [hc]
          exact ih n t ht
      | none =>
          rw [hl] at ht
          have hc : countInserts snap (p :: rest) = countInserts snap rest + 1 := by
            unfold countInserts
            rw [List.filter_cons, hl]
            simp [Nat.add_comm]
          rw [hc]
          rcases List.mem_cons.mp ht with rfl | ht2
          · have : (mkImportTask now n p).id = n := rfl
            omega
          · have := ih (n + 1) t ht2
            omega

/-- Inserted tasks have pairwise distinct ids. -/
theorem mergeInserts_pairwise (snap : List Task) (now : String) :
    ∀ (data : List ImportTask) (n : Nat),
      (mergeInserts snap now data n).Pairwise (fun a b => a.id ≠ b.id) := by
  intro data
  induction data with
  | nil => intro n; exact List.Pairwise.nil
  | cons p rest ih =>
      intro n
      rw [mergeInserts_cons]
      cases hl : lookupKey snap (keyOfImport p) with
      | some e => exact ih n
      | none =>
          refine List.Pairwise.cons (fun t ht => ?_) (ih (n + 1))
          have hge := mergeInserts_id_ge snap now rest (n + 1) t ht
          have hid : (mkImportTask now n p).id = n := rfl
          omega

/-- A merge fold preserves store well-formedness. -/
theorem merge_wf (S : Store) (now : String) (data : List ImportTask)
    (hwf : S.Wf) : (data.foldl (mergeStoreStep S.tasks now) S).Wf := by
  obtain ⟨h1, h2⟩ := mergeFold_decomp S.tasks now data S hwf.2
  constructor
  · rw [h1, mergePatches_eq_map]
    rw [List.pairwise_append]
    refine ⟨?_, mergeInserts_pairwise S.tasks now data S.nextId, ?_⟩
    · rw [List.pairwise_map]
      refine hwf.1.imp (fun hab => ?_)
      rwa [finalizeTask_id, finalizeTask_id]
    · intro a ha b hb
      rcases List.mem_map.mp ha with ⟨u, hu, hau⟩
      have hua : a.id = u.id := by rw [← hau, finalizeTask_id]
      have h3 := hwf.2 u hu
      have h4 := mergeInserts_id_ge S.tasks now data S.nextId b hb
      omega
  · intro t ht
    rw [h1, mergePatches_eq_map] at ht
    rw [h2]
    rcases List.mem_append.mp ht with h3 | h3
    · rcases List.mem_map.mp h3 with ⟨u, hu, hut⟩
      have : t.id = u.id := by rw [← hut, finalizeTask_id]
      have := hwf.2 u hu
      omega
    · exact mergeInserts_id_lt S.tasks now data S.nextId t h3

/-- A merge fold inserts nothing when every payload key already resolves. -/
theorem mergeInserts_eq_nil (snap : List Task) (now : String) :
    ∀ (data : List ImportTask) (n : Nat),
      (∀ p ∈ data, (lookupKey snap (keyOfImport p)).isSome) →
      mergeInserts snap now data n = [] := by
  intro data
  induction data with
  | nil => intro n _; rfl
  | cons p rest ih =>
      intro n hall
      rw [mergeInserts_cons]
      cases hl : lookupKey snap (keyOfImport p) with
      | some e => exact ih n (fun q hq => hall q (List.mem_cons_of_mem p hq))
      | none =>
          have := hall p (List.mem_cons_self p rest)
          rw [hl] at this
          cases this

/-- A nonempty filtered list has a last element. -/
theorem getLast_of_mem {α : Type} {l : List α} {x : α} (h : x ∈ l) :
    ∃ y, l.getLast? = some y := by
  cases hlast : l.getLast? with
  | some y => exact ⟨y, rfl⟩
  | none =>
      rw [List.getLast?_eq_none_iff.mp hlast] at h
      exact absurd h (List.not_mem_nil x)


/-- C5 amended: merge-importing the same payload a second time, against the
store the first merge-import produced, changes nothing up to the updatedAt
stamps, provided every payload entry's notes array is sorted by timestamp
(the modelled store starts well-formed: distinct ids below the counter).
In particular no duplicate tasks and no duplicate notes are created. -/
theorem c5_merge_idempotence (ts1 ts2 : String) (data : List ImportTask)
    (S : Store) (hwf : S.Wf)
    (hsorted : ∀ p ∈ data, p.notes.Pairwise noteLe) :
    (importTasks ts2 data .merge (importTasks ts1 data .merge S).2).2.tasks.map stripTs =
      (importTasks ts1 data .merge S).2.tasks.map stripTs := by
  have hred1 : (importTasks ts1 data .merge S).2 = (data.foldl (mergeStoreStep S.tasks ts1) S) := rfl
  have hred2 : (importTasks ts2 data .merge (data.foldl (mergeStoreStep S.tasks ts1) S)).2 =
      data.foldl (mergeStoreStep (data.foldl (mergeStoreStep S.tasks ts1) S).tasks ts2) (data.foldl (mergeStoreStep S.tasks ts1) S) := rfl
  rw [hred1, hred2]
  have hwf1 : (data.foldl (mergeStoreStep S.tasks ts1) S).Wf := merge_wf S ts1 data hwf
  have hmatched : ∀ p ∈ data, (lookupKey (data.foldl (mergeStoreStep S.tasks ts1) S).tasks (keyOfImport p)).isSome := by
    intro p hp
    have hpmem : p ∈ data.filter (fun p2 => keyOfImport p2 == keyOfImport p) :=
      List.mem_filter.mpr ⟨hp, by simp⟩
    obtain ⟨q, hq⟩ := getLast_of_mem hpmem
    obtain ⟨e1, he1, _⟩ := lookup_after_merge S ts1 data hwf (keyOfImport p) q hq
    rw [he1]
    rfl
  obtain ⟨hdec2, _⟩ := mergeFold_decomp (data.foldl (mergeStoreStep S.tasks ts1) S).tasks ts2 data (data.foldl (mergeStoreStep S.tasks ts1) S) hwf1.2
  rw [hdec2, mergePatches_eq_map,
    mergeInserts_eq_nil (data.foldl (mergeStoreStep S.tasks ts1) S).tasks ts2 data (data.foldl (mergeStoreStep S.tasks ts1) S).nextId hmatched,
    List.append_nil, List.map_map]
  refine List.map_congr_left (fun u hu => ?_)
  simp only [Function.comp]
  cases hlast : lastTargeting (data.foldl (mergeStoreStep S.tasks ts1) S).tasks data u.id with
  | none => rw [finalizeTask_eq_none ts2 hlast]
  | some p =>
      rw [finalizeTask_eq_some ts2 hlast]
      have htp : targetsB (data.foldl (mergeStoreStep S.tasks ts1) S).tasks p u.id = true := lastTargeting_targets hlast
      obtain ⟨e2, hl2, hid2⟩ : ∃ e2,
          lookupKey (data.foldl (mergeStoreStep S.tasks ts1) S).tasks (keyOfImport p) = some e2 ∧ e2.id = u.id := by
        cases hlp : lookupKey (data.foldl (mergeStoreStep S.tasks ts1) S).tasks (keyOfImport p) with
        | none =>
            rw [targetsB_eq_false u.id hlp] at htp
            cases htp
        | some e2 =>
            rw [targetsB_eq_id u.id hlp] at htp
            exact ⟨e2, rfl, by simpa using htp⟩
      have he2mem := lookupKey_mem hl2
      have heu : e2 = u := pairwise_id_inj hwf1.1 he2mem.1 hu hid2
      have hl2u : lookupKey (data.foldl (mergeStoreStep S.tasks ts1) S).tasks (keyOfImport p) = some u := by
        rw [← heu]
        exact hl2
      have hfiltereq : data.filter (fun p2 => targetsB (data.foldl (mergeStoreStep S.tasks ts1) S).tasks p2 u.id) =
          data.filter (fun p2 => keyOfImport p2 == keyOfImport p) := by
        refine List.filter_congr (fun p2 _ => ?_)
        cases hlp2 : lookupKey (data.foldl (mergeStoreStep S.tasks ts1) S).tasks (keyOfImport p2) with
        | none =>
            rw [targetsB_eq_false u.id hlp2]
            have hne : ¬ keyOfImport p2 = keyOfImport p := by
              intro hc
              rw [hc, hl2u] at hlp2
              cases hlp2
            simp [hne]
        | some e3 =>
            rw [targetsB_eq_id u.id hlp2]
            have he3 := lookupKey_mem hlp2
            by_cases hk2 : keyOfImport p2 = keyOfImport p
            · rw [hk2, hl2u] at hlp2
              have he3u : e3 = u := by
                injection hlp2 with h
                exact h.symm
              simp [he3u, hk2]
            · have hne : e3 ≠ u := by
                intro hc
                apply hk2
                rw [← he3.2, hc, (lookupKey_mem hl2u).2]
              have hidne : e3.id ≠ u.id :=
                fun hc => hne (pairwise_id_inj hwf1.1 he3.1 hu hc)
              simp [hidne, hk2]
      have hql : (data.filter
          (fun p2 => keyOfImport p2 == keyOfImport p)).getLast? = some p := by
        rw [← hfiltereq]
        exact hlast
      have hp : p ∈ data :=
        (List.mem_filter.mp (List.mem_of_mem_getLast? hql)).1
      obtain ⟨e1, he1, hst, hbr, hca, hnotes⟩ :=
        lookup_after_merge S ts1 data hwf (keyOfImport p) p hql
      have he1u : e1 = u := by
        rw [hl2u] at he1
        injection he1 with h
        exact h.symm
      rw [he1u] at hst hbr hca hnotes
      have hsub : ∀ n ∈ p.notes, n ∈ u.notes := by
        rcases hnotes with ⟨e0, _, hn⟩ | ⟨_, hn⟩
        · rw [hn]
          intro n hnmem
          exact mem_sortNotes.mpr (mem_dedupNotes_incoming e0.notes p.notes n hnmem)
        · rw [hn]
          intro n hnmem
          exact hnmem
      have hsortu : u.notes.Pairwise noteLe := by
        rcases hnotes with ⟨e0, _, hn⟩ | ⟨_, hn⟩
        · rw [hn]
          exact sortNotes_pairwise _
        · rw [hn]
          exact hsorted p hp
      unfold mergePatchApply
      rw [hl2u]
      show stripTs
          { id := u.id, title := u.title, project := u.project,
            status := p.status, blockedReason := p.blockedReason,
            notes := sortNotes (dedupNotes u.notes p.notes),
            createdAt := u.createdAt, updatedAt := ts2,
            completedAt := p.completedAt } = stripTs u
      rw [dedupNotes_subset_eq u.notes p.notes hsub, sortNotes_sorted_eq hsortu]
      rw [← hst, ← hbr, ← hca]
      rfl


/-- Witness for c5_merge_idempotence: a two-entry payload (one key match
with differently cased key, one new task) merge-imported twice. -/
theorem c5_merge_idempotence_witness :
    (importTasks "8" c5WImport .merge
        (importTasks "7" c5WImport .merge c5WStore).2).2.tasks.map stripTs =
      (importTasks "7" c5WImport .merge c5WStore).2.tasks.map stripTs :=
  c5_merge_idempotence "7" "8" c5WImport c5WStore (by decide) (by decide)

end DSL
